import Mathlib

/-!
Shallow embedding of the mesh-repair / manifold-analysis engine and the
radar (SAR) pipeline of the `ts-svelte-3d_viewer` repository.

Conventions used throughout:
* JS numbers that hold integer data (vertex indices, counters, map keys)
  are modelled as `ℕ` / `ℤ`; coordinate arithmetic is modelled over `ℚ`
  (exact arithmetic; IEEE rounding is outside the model).
* A JS `Map` (insertion ordered) is modelled as an association list, a JS
  `Set` as a duplicate-free list built by append-if-absent.
* `NaN` produced by `parseInt`/`parseFloat` on malformed input is modelled
  as `none` of an `Option` type in the OBJ parser.
-/

/-! ### Edge keys (src/lib/geometry_fix.ts, `getEdgeKey` / `decodeEdgeKey`) -/

/-- `getEdgeKey` from `geometry_fix.ts`: Cantor pairing of the sorted pair.
`((min + max) * (min + max + 1)) / 2 + max`; the division is exact because
`s * (s + 1)` is even. -/
def getEdgeKey (a b : ℕ) : ℕ :=
  let mn := min a b
  let mx := max a b
  (mn + mx) * (mn + mx + 1) / 2 + mx

/-- `decodeEdgeKey` from `geometry_fix.ts`: inverse Cantor pairing via
`w = floor((sqrt(8*key+1) - 1) / 2)`, `t = (w^2 + w)/2`, `max = key - t`,
`min = w - max`.  `Math.sqrt` followed by `Math.floor` on a natural number
is modelled by `Nat.sqrt`. -/
def decodeEdgeKey (key : ℕ) : ℕ × ℕ :=
  let w := (Nat.sqrt (8 * key + 1) - 1) / 2
  let t := (w * w + w) / 2
  let mx := key - t
  let mn := w - mx
  (mn, mx)

lemma getEdgeKey_comm (a b : ℕ) : getEdgeKey a b = getEdgeKey b a := by
  unfold getEdgeKey
  rw [min_comm, max_comm]

lemma sqrt_eight_key (s m : ℕ) (hm : m ≤ s) :
    Nat.sqrt (8 * (s * (s + 1) / 2 + m) + 1) = 2 * s + 1 ∨
    Nat.sqrt (8 * (s * (s + 1) / 2 + m) + 1) = 2 * s + 2 := by
  set key := s * (s + 1) / 2 + m with hkey
  have hdiv : s * (s + 1) / 2 * 2 = s * (s + 1) :=
    Nat.div_mul_cancel (Nat.even_mul_succ_self s).two_dvd
  have h8 : 8 * key + 1 = 4 * (s * s) + 4 * s + 8 * m + 1 := by
    have : s * (s + 1) = s * s + s := by ring
    omega
  have hlo : (2 * s + 1) ≤ Nat.sqrt (8 * key + 1) := by
    rw [Nat.le_sqrt]
    nlinarith
  have hhi : Nat.sqrt (8 * key + 1) < 2 * s + 3 := by
    rw [Nat.sqrt_lt']
    nlinarith
  omega

lemma decodeEdgeKey_getEdgeKey (a b : ℕ) :
    decodeEdgeKey (getEdgeKey a b) = (min a b, max a b) := by
  unfold getEdgeKey decodeEdgeKey
  set s := min a b + max a b with hs
  have hm : max a b ≤ s := by simp [hs]
  have hsq := sqrt_eight_key s (max a b) hm
  have hdiv : s * (s + 1) / 2 * 2 = s * (s + 1) :=
    Nat.div_mul_cancel (Nat.even_mul_succ_self s).two_dvd
  have hss : s * (s + 1) = s * s + s := by ring
  have hw : (Nat.sqrt (8 * (s * (s + 1) / 2 + max a b) + 1) - 1) / 2 = s := by
    rcases hsq with h | h <;> omega
  rw [hw]
  show (s - ((min a b + max a b) * (min a b + max a b + 1) / 2 + max a b -
        (s * s + s) / 2),
      (min a b + max a b) * (min a b + max a b + 1) / 2 + max a b -
        (s * s + s) / 2) = (min a b, max a b)
  have hexp : (min a b + max a b) * (min a b + max a b + 1) = s * s + s := by
    rw [hs]; ring
  have h1 : (min a b + max a b) * (min a b + max a b + 1) / 2 + max a b -
      (s * s + s) / 2 = max a b := by omega
  rw [h1]
  simp only [Prod.mk.injEq, and_true]
  omega

/-- Claim C4: for all vertex indices `a` and `b`, `getEdgeKey a b = getEdgeKey b a`
(the unordered edge `(a,b)` and `(b,a)` get the identical map key), and
`decodeEdgeKey` is the exact inverse of the encoding:
`decodeEdgeKey (getEdgeKey a b) = (min a b, max a b)`. -/
theorem getEdgeKey_symm_decode (a b : ℕ) :
    getEdgeKey a b = getEdgeKey b a ∧
    decodeEdgeKey (getEdgeKey a b) = (min a b, max a b) :=
  ⟨getEdgeKey_comm a b, decodeEdgeKey_getEdgeKey a b⟩

/-! ### Radar pipeline (src/lib/sar_simulation.ts) -/

/-- Shallow embedding of `SARSimulation.simulateSAR`.  Sensor positions,
radar returns and the processed image are abstract (`P`, `R`, `I`): the
WebGL capture `SARSensor.captureRadarReturn` is the abstract function
`capture` and `SARProcessor.processSARImage` on the accumulated returns is
`process`.  The second component of the result is the list of radar
returns actually captured (the processor's `radarReturns` accumulator), so
partial work is observable in the model.  The source throws
`"Aperture path is empty"` when `path.length === 0` before the capture
loop; a thrown error is modelled as `Except.error`. -/
def simulateSAR {P R I : Type} (capture : P → R) (process : List R → I)
    (aperturePath : List P) : Except String I × List R :=
  if aperturePath.length = 0 then
    (Except.error "Aperture path is empty", [])
  else
    let returns := aperturePath.map capture
    (Except.ok (process returns), returns)

/-- Claim C9: an empty aperture path makes `simulateSAR` raise the
"Aperture path is empty" error before any radar return is captured and
before any image is produced: the result is the error alone, with an empty
capture trace, for every possible capture and processing behaviour. -/
theorem simulateSAR_empty_path {P R I : Type} (capture : P → R) (process : List R → I) :
    simulateSAR capture process ([] : List P) =
      (Except.error "Aperture path is empty", ([] : List R)) := by
  simp [simulateSAR]

/-- The inner convolution sum of `applyFilterHorizontal`:
`sum += temp[y * width + px] * kernel[k]` over `k < kernel.length`,
with `px = x + k - kernelRadius`. -/
def hSum (temp kernel : List ℚ) (width kernelRadius y x : ℕ) : ℚ :=
  (List.range kernel.length).foldl
    (fun sum k => sum + temp.getD (y * width + (x + k - kernelRadius)) 0 * kernel.getD k 0) 0

/-- The inner convolution sum of `applyFilterVertical`:
`sum += temp[py * width + x] * kernel[k]` with `py = y + k - kernelRadius`. -/
def vSum (temp kernel : List ℚ) (width kernelRadius y x : ℕ) : ℚ :=
  (List.range kernel.length).foldl
    (fun sum k => sum + temp.getD ((y + k - kernelRadius) * width + x) 0 * kernel.getD k 0) 0

/-- `SARProcessor.applyFilterHorizontal`: snapshots the buffer into `temp`,
then for every row `y < height` rewrites the pixels
`kernelRadius ≤ x < width - kernelRadius` with the kernel sum read from
`temp`.  The in-place mutation of `data` is modelled by `List.set`. -/
def applyFilterHorizontal (data kernel : List ℚ) (width height : ℕ) : List ℚ :=
  let temp := data
  let kernelRadius := kernel.length / 2
  (List.range height).foldl (fun d y =>
    (List.range' kernelRadius (width - kernelRadius - kernelRadius)).foldl (fun d x =>
      d.set (y * width + x) (hSum temp kernel width kernelRadius y x)) d) data

/-- `SARProcessor.applyFilterVertical`: same shape with the roles of `x`
and `y` exchanged (outer loop over columns, inner over
`kernelRadius ≤ y < height - kernelRadius`). -/
def applyFilterVertical (data kernel : List ℚ) (width height : ℕ) : List ℚ :=
  let temp := data
  let kernelRadius := kernel.length / 2
  (List.range width).foldl (fun d x =>
    (List.range' kernelRadius (height - kernelRadius - kernelRadius)).foldl (fun d y =>
      d.set (y * width + x) (vSum temp kernel width kernelRadius y x)) d) data

lemma foldl_flatMap {α β γ : Type} (f : α → List β) (g : γ → β → γ) (ys : List α) (a : γ) :
    (ys.flatMap f).foldl g a = ys.foldl (fun a y => (f y).foldl g a) a := by
  induction ys generalizing a with
  | nil => rfl
  | cons y ys ih => simp [List.flatMap_cons, List.foldl_append, ih]

lemma getD_set_ne {α : Type} (l : List α) (i j : ℕ) (x d : α) (h : i ≠ j) :
    (l.set i x).getD j d = l.getD j d := by
  simp [List.getD, List.getElem?_set_ne h]

lemma getD_set_self {α : Type} (l : List α) (i : ℕ) (x d : α) (h : i < l.length) :
    (l.set i x).getD i d = x := by
  simp [List.getD, List.getElem?_set_self, h]

/-- Frame lemma for a sequence of writes: a position no write targets keeps
its pre-fold value. -/
lemma foldl_set_getD_not_mem {α : Type} (idx : α → ℕ) (v : α → ℚ) (ps : List α)
    (d : List ℚ) (j : ℕ) (h : ∀ p ∈ ps, idx p ≠ j) :
    (ps.foldl (fun d p => d.set (idx p) (v p)) d).getD j 0 = d.getD j 0 := by
  induction ps generalizing d with
  | nil => rfl
  | cons p ps ih =>
    rw [List.foldl_cons, ih _ (fun q hq => h q (List.mem_cons_of_mem _ hq)),
      getD_set_ne _ _ _ _ _ (h p (List.mem_cons_self p ps))]

/-- A position some write targets, all targeting writes agreeing on the
written value, ends up holding that value. -/
lemma foldl_set_getD_mem {α : Type} (idx : α → ℕ) (v : α → ℚ) (j : ℕ) (c : ℚ)
    (ps : List α) :
    ∀ d : List ℚ, j < d.length → (∃ p ∈ ps, idx p = j) →
      (∀ p ∈ ps, idx p = j → v p = c) →
      (ps.foldl (fun d p => d.set (idx p) (v p)) d).getD j 0 = c := by
  induction ps with
  | nil => intro d _ hex _; exact absurd hex (by simp)
  | cons p ps ih =>
    intro d hj hex hval
    rw [List.foldl_cons]
    by_cases hrest : ∃ q ∈ ps, idx q = j
    · exact ih _ (by simpa using hj) hrest
        (fun q hq hq' => hval q (List.mem_cons_of_mem _ hq) hq')
    · have hp : idx p = j := by
        rcases hex with ⟨q, hq, hq'⟩
        rcases List.mem_cons.mp hq with rfl | hq
        · exact hq'
        · exact absurd ⟨q, hq, hq'⟩ hrest
      rw [foldl_set_getD_not_mem _ _ _ _ _ (fun q hq => by
        intro hq'; exact hrest ⟨q, hq, hq'⟩)]
      rw [← hp, getD_set_self _ _ _ _ (hp ▸ hj), hval p (List.mem_cons_self p ps) hp]

/-- The (row, column) pairs the horizontal filter writes. -/
def pairsH (width height r : ℕ) : List (ℕ × ℕ) :=
  (List.range height).flatMap (fun y => (List.range' r (width - r - r)).map (fun x => (y, x)))

/-- The (column, row) pairs the vertical filter writes. -/
def pairsV (width height r : ℕ) : List (ℕ × ℕ) :=
  (List.range width).flatMap (fun x => (List.range' r (height - r - r)).map (fun y => (x, y)))

lemma applyFilterHorizontal_eq (data kernel : List ℚ) (w h : ℕ) :
    applyFilterHorizontal data kernel w h =
      (pairsH w h (kernel.length / 2)).foldl
        (fun d p => d.set (p.1 * w + p.2)
          (hSum data kernel w (kernel.length / 2) p.1 p.2)) data := by
  unfold applyFilterHorizontal pairsH
  rw [foldl_flatMap]
  simp only [List.foldl_map]

lemma applyFilterVertical_eq (data kernel : List ℚ) (w h : ℕ) :
    applyFilterVertical data kernel w h =
      (pairsV w h (kernel.length / 2)).foldl
        (fun d p => d.set (p.2 * w + p.1)
          (vSum data kernel w (kernel.length / 2) p.2 p.1)) data := by
  unfold applyFilterVertical pairsV
  rw [foldl_flatMap]
  simp only [List.foldl_map]

lemma mem_pairsH {w h r : ℕ} {p : ℕ × ℕ} (hp : p ∈ pairsH w h r) :
    p.1 < h ∧ r ≤ p.2 ∧ p.2 + r < w := by
  simp only [pairsH, List.mem_flatMap, List.mem_map, List.mem_range,
    List.mem_range'] at hp
  rcases hp with ⟨y, hy, x, ⟨i, hi, hx⟩, hxy⟩
  subst hxy
  exact ⟨hy, by omega, by omega⟩

lemma pairsH_mem {w h r y x : ℕ} (hy : y < h) (hx1 : r ≤ x) (hx2 : x + r < w) :
    (y, x) ∈ pairsH w h r := by
  simp only [pairsH, List.mem_flatMap, List.mem_map, List.mem_range, List.mem_range']
  exact ⟨y, hy, ⟨x, ⟨x - r, by omega, by omega⟩, rfl⟩⟩

lemma mem_pairsV {w h r : ℕ} {p : ℕ × ℕ} (hp : p ∈ pairsV w h r) :
    p.1 < w ∧ r ≤ p.2 ∧ p.2 + r < h := by
  simp only [pairsV, List.mem_flatMap, List.mem_map, List.mem_range,
    List.mem_range'] at hp
  rcases hp with ⟨x, hx, y, ⟨i, hi, hy⟩, hxy⟩
  subst hxy
  exact ⟨hx, by omega, by omega⟩

lemma pairsV_mem {w h r y x : ℕ} (hx : x < w) (hy1 : r ≤ y) (hy2 : y + r < h) :
    (x, y) ∈ pairsV w h r := by
  simp only [pairsV, List.mem_flatMap, List.mem_map, List.mem_range, List.mem_range']
  exact ⟨x, hx, ⟨y, ⟨y - r, by omega, by omega⟩, rfl⟩⟩

lemma grid_index_inj {w y x v u : ℕ} (hx : x < w) (hu : u < w)
    (h : y * w + x = v * w + u) : y = v ∧ x = u := by
  have hw : 0 < w := by omega
  have key : ∀ a b : ℕ, b < w → (a * w + b) % w = b := by
    intro a b hb
    rw [Nat.add_comm, Nat.add_mul_mod_self_right]
    exact Nat.mod_eq_of_lt hb
  have hx' : (y * w + x) % w = x := key y x hx
  have hu' : (v * w + u) % w = u := key v u hu
  have hxu : x = u := by rw [← hx', ← hu', h]
  refine ⟨?_, hxu⟩
  have : y * w = v * w := by omega
  exact Nat.eq_of_mul_eq_mul_right hw this

/-- Claim C10: frame property of the two radar convolution passes.  With the
5-tap range-compression kernel, `applyFilterHorizontal` leaves every pixel
in a column `x < 2` or `x ≥ width - 2` (and any buffer slot that is not an
interior pixel at all) unchanged; with the 7-tap azimuth-focusing kernel,
`applyFilterVertical` leaves every pixel in a row `y < 3` or `y ≥ height - 3`
unchanged.  Interior pixels are rewritten with the kernel sum computed from
the pre-pass buffer (`hSum data…` / `vSum data…`, i.e. from the copy, never
from partially filtered values). -/
theorem sar_filter_frame (data kernel : List ℚ) (w h : ℕ) :
    (kernel.length = 5 →
      (∀ j : ℕ, (¬ ∃ y x, y < h ∧ 2 ≤ x ∧ x + 2 < w ∧ j = y * w + x) →
        (applyFilterHorizontal data kernel w h).getD j 0 = data.getD j 0) ∧
      (∀ y x, y < h → x < w → (x < 2 ∨ w ≤ x + 2) →
        (applyFilterHorizontal data kernel w h).getD (y * w + x) 0 =
          data.getD (y * w + x) 0) ∧
      (∀ y x, y < h → 2 ≤ x → x + 2 < w → y * w + x < data.length →
        (applyFilterHorizontal data kernel w h).getD (y * w + x) 0 =
          hSum data kernel w 2 y x)) ∧
    (kernel.length = 7 →
      (∀ j : ℕ, (¬ ∃ y x, x < w ∧ 3 ≤ y ∧ y + 3 < h ∧ j = y * w + x) →
        (applyFilterVertical data kernel w h).getD j 0 = data.getD j 0) ∧
      (∀ y x, x < w → y < h → (y < 3 ∨ h ≤ y + 3) →
        (applyFilterVertical data kernel w h).getD (y * w + x) 0 =
          data.getD (y * w + x) 0) ∧
      (∀ y x, x < w → 3 ≤ y → y + 3 < h → y * w + x < data.length →
        (applyFilterVertical data kernel w h).getD (y * w + x) 0 =
          vSum data kernel w 3 y x)) := by
  constructor
  · intro hk
    have hr : kernel.length / 2 = 2 := by rw [hk]
    have hframe : ∀ j : ℕ, (¬ ∃ y x, y < h ∧ 2 ≤ x ∧ x + 2 < w ∧ j = y * w + x) →
        (applyFilterHorizontal data kernel w h).getD j 0 = data.getD j 0 := by
      intro j hj
      rw [applyFilterHorizontal_eq, hr]
      refine foldl_set_getD_not_mem _ _ _ _ _ (fun p hp hpj => ?_)
      obtain ⟨h1, h2, h3⟩ := mem_pairsH hp
      exact hj ⟨p.1, p.2, h1, h2, by omega, hpj.symm⟩
    refine ⟨hframe, fun y x hy hx hout => ?_, fun y x hy hx1 hx2 hlen => ?_⟩
    · refine hframe _ (fun hmem => ?_)
      rcases hmem with ⟨y', x', hy', hx1', hx2', heq⟩
      obtain ⟨rfl, rfl⟩ := grid_index_inj hx (by omega) heq
      omega
    · rw [applyFilterHorizontal_eq, hr]
      refine foldl_set_getD_mem _ _ _ _ _ _ hlen
        ⟨(y, x), pairsH_mem hy hx1 (by omega), rfl⟩ (fun p hp hpj => ?_)
      obtain ⟨h1, h2, h3⟩ := mem_pairsH hp
      obtain ⟨hpy, hpx⟩ := grid_index_inj (by omega) (by omega) hpj
      rw [hpy, hpx]
  · intro hk
    have hr : kernel.length / 2 = 3 := by rw [hk]
    have hframe : ∀ j : ℕ, (¬ ∃ y x, x < w ∧ 3 ≤ y ∧ y + 3 < h ∧ j = y * w + x) →
        (applyFilterVertical data kernel w h).getD j 0 = data.getD j 0 := by
      intro j hj
      rw [applyFilterVertical_eq, hr]
      refine foldl_set_getD_not_mem _ _ _ _ _ (fun p hp hpj => ?_)
      obtain ⟨h1, h2, h3⟩ := mem_pairsV hp
      exact hj ⟨p.2, p.1, h1, h2, by omega, hpj.symm⟩
    refine ⟨hframe, fun y x hx hy hout => ?_, fun y x hx hy1 hy2 hlen => ?_⟩
    · refine hframe _ (fun hmem => ?_)
      rcases hmem with ⟨y', x', hx', hy1', hy2', heq⟩
      obtain ⟨rfl, rfl⟩ := grid_index_inj hx hx' heq
      omega
    · rw [applyFilterVertical_eq, hr]
      refine foldl_set_getD_mem _ _ _ _ _ _ hlen
        ⟨(x, y), pairsV_mem hx hy1 (by omega), rfl⟩ (fun p hp hpj => ?_)
      obtain ⟨h1, h2, h3⟩ := mem_pairsV hp
      obtain ⟨hpy, hpx⟩ := grid_index_inj h1 hx hpj
      rw [hpy, hpx]

/-- Witness for C10: the frame property applied to a concrete 5×2 image and
the concrete 5-tap / 7-tap kernel lengths. -/
theorem sar_filter_frame_witness :
    (applyFilterHorizontal [0, 1, 2, 3, 4, 5, 6, 7, 8, 9] [1, 1, 1, 1, 1] 5 2).getD 6 0 =
        ([0, 1, 2, 3, 4, 5, 6, 7, 8, 9] : List ℚ).getD 6 0 ∧
      (applyFilterHorizontal [0, 1, 2, 3, 4, 5, 6, 7, 8, 9] [1, 1, 1, 1, 1] 5 2).getD 7 0 =
        hSum [0, 1, 2, 3, 4, 5, 6, 7, 8, 9] [1, 1, 1, 1, 1] 5 2 1 2 ∧
      (applyFilterVertical [0, 1, 2, 3, 4, 5, 6, 7, 8, 9] [1, 1, 1, 1, 1, 1, 1] 5 2).getD 7 0 =
        ([0, 1, 2, 3, 4, 5, 6, 7, 8, 9] : List ℚ).getD 7 0 :=
  ⟨((sar_filter_frame [0, 1, 2, 3, 4, 5, 6, 7, 8, 9] [1, 1, 1, 1, 1] 5 2).1 rfl).2.1
      1 1 (by decide) (by decide) (by decide),
    ((sar_filter_frame [0, 1, 2, 3, 4, 5, 6, 7, 8, 9] [1, 1, 1, 1, 1] 5 2).1 rfl).2.2
      1 2 (by decide) (by decide) (by decide) (by decide),
    ((sar_filter_frame [0, 1, 2, 3, 4, 5, 6, 7, 8, 9] [1, 1, 1, 1, 1, 1, 1] 5 2).2 rfl).2.1
      1 2 (by decide) (by decide) (by decide)⟩

/-! ### Native-scene geometry model (src/lib/geometry_fix.ts)

A `THREE.BufferGeometry` is modelled by its four buffers.  `positions` is
the flattened `x,y,z` float array; `normals`/`uvs`/`index` are optional
attributes (`none` = attribute absent).  Coordinates are exact rationals. -/

structure BufferGeometry where
  positions : List ℚ
  normals : Option (List ℚ)
  uvs : Option (List ℚ)
  index : Option (List ℕ)
deriving DecidableEq

/-- Consecutive triples of a flat buffer (the loops `for i … i += 3`); a
trailing incomplete group is dropped (well-formed buffers have length a
multiple of 3). -/
def triples {α : Type} : List α → List (α × α × α)
  | x :: y :: z :: rest => (x, y, z) :: triples rest
  | _ => []

/-- Flatten a triple list back into a flat buffer (the `push(x, y, z)` calls). -/
def flatTriples {α : Type} (l : List (α × α × α)) : List α :=
  l.flatMap (fun t => [t.1, t.2.1, t.2.2])

/-- Read vertex `i`'s triple from a flat buffer
(`array[3i], array[3i+1], array[3i+2]`; a JS out-of-range read yields
`undefined`, modelled by the default `0`). -/
def nthTriple (l : List ℚ) (i : ℕ) : ℚ × ℚ × ℚ :=
  (l.getD (3 * i) 0, l.getD (3 * i + 1) 0, l.getD (3 * i + 2) 0)

/-- An optional attribute array is only installed when non-null and
non-empty (the `if (xs && xs.length > 0)` guards of `updateMeshGeometry`). -/
def presentAttr {α : Type} (o : Option (List α)) : Option (List α) :=
  o.bind (fun l => if 0 < l.length then some l else none)

/-- `updateMeshGeometry`: rebuilds the geometry; `normals`/`uvs`/`index`
attributes are only set when the rebuilt array is non-null and non-empty. -/
def updateMeshGeometry (positions : List ℚ) (normals uvs : Option (List ℚ))
    (indices : Option (List ℕ)) : BufferGeometry :=
  { positions := positions
    normals := presentAttr normals
    uvs := presentAttr uvs
    index := presentAttr indices }

/-- `Math.round` on an exact rational: JS rounds half toward `+∞`. -/
def jsRound (q : ℚ) : ℤ := ⌊q + 1 / 2⌋

/-- The spatial-hash key of `mergeVerticesForMesh` (and of the OBJ variant's
`mergeVertices`): the string
`"round(x/tol)*tol,round(y/tol)*tol,round(z/tol)*tol"`, modelled by the
triple of quantized coordinates (two such strings are equal iff the
quantized triples are). -/
def quantKey (tolerance : ℚ) (v : ℚ × ℚ × ℚ) : ℚ × ℚ × ℚ :=
  ((jsRound (v.1 / tolerance) : ℚ) * tolerance,
   (jsRound (v.2.1 / tolerance) : ℚ) * tolerance,
   (jsRound (v.2.2 / tolerance) : ℚ) * tolerance)

/-- State of the vertex-merge scan: `vmap` is the JS `Map<string, number>`
(insertion-ordered key/newIndex pairs), `keep` the original indices of the
surviving vertices in first-seen order, `remap` the `indexRemap` entries
for the vertices processed so far, `merged` the duplicate counter. -/
structure MergeScanState where
  vmap : List ((ℚ × ℚ × ℚ) × ℕ)
  keep : List ℕ
  remap : List ℕ
  merged : ℕ
deriving DecidableEq

/-- `Map.get` on the association-list model of a JS `Map`. -/
def vmapLookup (m : List ((ℚ × ℚ × ℚ) × ℕ)) (k : ℚ × ℚ × ℚ) : Option ℕ :=
  match m with
  | [] => none
  | (k', j) :: rest => if k' = k then some j else vmapLookup rest k

/-- One iteration of the vertex-merge loop, on the pair
(original index, vertex): a vertex whose quantized key was already seen
remaps to the key's first owner and counts as merged; otherwise it survives
and gets the next fresh index. -/
def mergeScanStep (tolerance : ℚ) (s : MergeScanState) (iv : ℕ × (ℚ × ℚ × ℚ)) :
    MergeScanState :=
  let key := quantKey tolerance iv.2
  match vmapLookup s.vmap key with
  | some j => { s with remap := s.remap ++ [j], merged := s.merged + 1 }
  | none =>
    { vmap := s.vmap ++ [(key, s.keep.length)]
      keep := s.keep ++ [iv.1]
      remap := s.remap ++ [s.keep.length]
      merged := s.merged }

/-- The per-vertex loop shared by `mergeVerticesForMesh` and the OBJ
variant's `mergeVertices`: walk the vertices in order applying
`mergeScanStep`. -/
def mergeScan (tolerance : ℚ) (verts : List (ℚ × ℚ × ℚ)) : MergeScanState :=
  verts.enum.foldl (mergeScanStep tolerance) ⟨[], [], [], 0⟩

/-- Rebuild a `uv` buffer for the surviving vertices: per survivor `i`,
push `uvs[2i], uvs[2i+1]` when `2i + 1 < uvs.length` (else push nothing) —
the guarded `newUvs.push` of the source. -/
def rebuildUvs (keep : List ℕ) (us : List ℚ) : List ℚ :=
  keep.flatMap (fun i =>
    if 2 * i + 1 < us.length then [us.getD (2 * i) 0, us.getD (2 * i + 1) 0] else [])

/-- `GeometryRepairer.mergeVerticesForMesh`: scan vertices with the
tolerance key, rebuild positions/normals/uvs from the survivors, remap the
index buffer through `indexRemap` (`indexRemap.get(i)!`; the model's
`getD … 0` default is only exercised by out-of-range indices, which in JS
would produce `undefined` entries), and install via `updateMeshGeometry`. -/
def mergeVerticesForMesh (g : BufferGeometry) (tolerance : ℚ) : BufferGeometry × ℕ :=
  let verts := triples g.positions
  let s := mergeScan tolerance verts
  let newPositions := flatTriples (s.keep.map (fun i => verts.getD i (0, 0, 0)))
  let newNormals := g.normals.map (fun ns => flatTriples (s.keep.map (fun i => nthTriple ns i)))
  let newUvs := g.uvs.map (fun us => rebuildUvs s.keep us)
  let newIndices := g.index.map (fun idx => idx.map (fun i => s.remap.getD i 0))
  (updateMeshGeometry newPositions newNormals newUvs newIndices, s.merged)

/-- `GeometryRepairer.removeLooseVerticesForMesh`: no-op returning 0 on
non-indexed geometry; otherwise keep exactly the vertices referenced by
the index buffer, in order, rebuild the attribute arrays from them and
remap every index to its survivor's compacted position. -/
def removeLooseVerticesForMesh (g : BufferGeometry) : BufferGeometry × ℕ :=
  match g.index with
  | none => (g, 0)
  | some indices =>
    let vertexCount := g.positions.length / 3
    let keep := (List.range vertexCount).filter (fun i => indices.contains i)
    let removedCount := (List.range vertexCount).countP (fun i => !(indices.contains i))
    let newPositions := flatTriples (keep.map (fun i => nthTriple g.positions i))
    let newNormals := g.normals.map (fun ns => flatTriples (keep.map (fun i => nthTriple ns i)))
    let newUvs := g.uvs.map (fun us => rebuildUvs keep us)
    let newIndices := indices.map (fun i => keep.indexOf i)
    (updateMeshGeometry newPositions newNormals newUvs (some newIndices), removedCount)

/-- The string edge key `` `${v1}-${v2}` `` with the smaller index first,
used by `fixNonManifoldEdgesForMesh`; modelled as the ordered pair. -/
def edgeKeyCanon (v1 v2 : ℕ) : ℕ × ℕ :=
  if v1 < v2 then (v1, v2) else (v2, v1)

/-- The three edges of face `(a, b, c)` in traversal order
(`face[j] → face[(j+1) % 3]` for `j = 0, 1, 2`). -/
def faceEdges (f : ℕ × ℕ × ℕ) : List (ℕ × ℕ) :=
  [edgeKeyCanon f.1 f.2.1, edgeKeyCanon f.2.1 f.2.2, edgeKeyCanon f.2.2 f.1]

/-- `edges.get(edgeKey).push(faceIndex)` on the association-list model of
`Map<string, number[]>` (creating the entry on first use). -/
def emPush (m : List ((ℕ × ℕ) × List ℕ)) (k : ℕ × ℕ) (i : ℕ) :
    List ((ℕ × ℕ) × List ℕ) :=
  match m with
  | [] => [(k, [i])]
  | (k', l) :: rest =>
    if k' = k then (k', l ++ [i]) :: rest else (k', l) :: emPush rest k i

/-- First pass of `fixNonManifoldEdgesForMesh`: the edge → incident-face-list
map, faces processed in order, each face pushing its index once per edge slot. -/
def buildEdgeMap (faces : List (ℕ × ℕ × ℕ)) : List ((ℕ × ℕ) × List ℕ) :=
  faces.enum.foldl (fun m fi =>
    (faceEdges fi.2).foldl (fun m e => emPush m e fi.1) m) []

/-- Second pass: for every edge whose face list has more than 2 entries, add
the faces from position 2 on to the `facesToRemove` set (a JS `Set`,
modelled as an append-if-absent list). -/
def facesToRemove (m : List ((ℕ × ℕ) × List ℕ)) : List ℕ :=
  m.foldl (fun acc el =>
    if 2 < el.2.length then
      (el.2.drop 2).foldl (fun acc f => if acc.contains f then acc else acc ++ [f]) acc
    else acc) []

/-- `GeometryRepairer.fixNonManifoldEdgesForMesh`: no-op returning 0 on
non-indexed geometry; otherwise drop every face marked in `facesToRemove`
and install the surviving faces with `setIndex` (which, unlike
`updateMeshGeometry`, keeps an index attribute even when empty). -/
def fixNonManifoldEdgesForMesh (g : BufferGeometry) : BufferGeometry × ℕ :=
  match g.index with
  | none => (g, 0)
  | some indices =>
    let faces := triples indices
    let rem := facesToRemove (buildEdgeMap faces)
    let newIndices := (faces.enum.filter (fun fi => !(rem.contains fi.1))).flatMap
      (fun fi => [fi.2.1, fi.2.2.1, fi.2.2.2])
    ({ g with index := some newIndices }, rem.length)

/-- The repair tolerance `0.000001` hard-coded in `geometry_fix.ts`. -/
def defaultTolerance : ℚ := 1 / 1000000

/-- `isZeroAreaFace`: squared length of the cross product of the two edge
vectors below `tolerance²`.  (`removeDegenerateFacesForMesh` phrases the
same test as `cross.length() < tolerance`, equivalent over exact reals.) -/
def isZeroAreaFace (positions : List ℚ) (a b c : ℕ) : Bool :=
  let va := nthTriple positions a
  let vb := nthTriple positions b
  let vc := nthTriple positions c
  let abx := vb.1 - va.1
  let aby := vb.2.1 - va.2.1
  let abz := vb.2.2 - va.2.2
  let acx := vc.1 - va.1
  let acy := vc.2.1 - va.2.1
  let acz := vc.2.2 - va.2.2
  let crossX := aby * acz - abz * acy
  let crossY := abz * acx - abx * acz
  let crossZ := abx * acy - aby * acx
  decide (crossX * crossX + crossY * crossY + crossZ * crossZ <
    defaultTolerance * defaultTolerance)

/-- A face fails the degenerate-face checks: repeated vertex index, or
zero-area by `isZeroAreaFace`. -/
def faceIsDegenerate (positions : List ℚ) (f : ℕ × ℕ × ℕ) : Bool :=
  (f.1 == f.2.1 || f.2.1 == f.2.2 || f.2.2 == f.1) ||
    isZeroAreaFace positions f.1 f.2.1 f.2.2

/-- `GeometryRepairer.removeDegenerateFacesForMesh`: no-op returning 0 on
non-indexed geometry; otherwise drop faces with a repeated index or
near-zero cross-product area and `setIndex` the rest. -/
def removeDegenerateFacesForMesh (g : BufferGeometry) : BufferGeometry × ℕ :=
  match g.index with
  | none => (g, 0)
  | some indices =>
    let faces := triples indices
    let removed := faces.countP (fun f => faceIsDegenerate g.positions f)
    let newIndices := (faces.filter (fun f => !(faceIsDegenerate g.positions f))).flatMap
      (fun f => [f.1, f.2.1, f.2.2])
    ({ g with index := some newIndices }, removed)

/-- Signed 32-bit `^` of JS: both operands are wrapped to int32, xored
bitwise, and the result is read back as a signed int32. -/
def jsXor (a b : ℤ) : ℤ :=
  let ua := (a % 4294967296).toNat
  let ub := (b % 4294967296).toNat
  let ux := ua ^^^ ub
  if ux < 2147483648 then (ux : ℤ) else (ux : ℤ) - 4294967296

/-- The spatial hash of `countDuplicateVerticesFast`:
`(round(x·10⁶) * 73856093) ^ (round(y·10⁶) * 19349663) ^ (round(z·10⁶) * 83492791)`
(products modelled exactly; `scale = 1 / tolerance`). -/
def vertexHash (v : ℚ × ℚ × ℚ) : ℤ :=
  let scale : ℚ := 1 / defaultTolerance
  jsXor (jsXor (jsRound (v.1 * scale) * 73856093) (jsRound (v.2.1 * scale) * 19349663))
    (jsRound (v.2.2 * scale) * 83492791)

/-- `countDuplicateVerticesFast`: count the vertices whose hash was already
seen earlier in iteration order. -/
def countDuplicateVerticesFast (positions : List ℚ) : ℕ :=
  ((triples positions).foldl (fun (st : List ℤ × ℕ) v =>
    let h := vertexHash v
    if st.1.contains h then (st.1, st.2 + 1) else (st.1 ++ [h], st.2))
    (([] : List ℤ), 0)).2

/-- Add to a JS `Set` (append-if-absent list model). -/
def setAdd (s : List ℕ) (x : ℕ) : List ℕ :=
  if s.contains x then s else s ++ [x]

/-- `cnt[i]++` on a JS array of counters (writes past the end are dropped;
in JS they would create `NaN` slots — no claim exercises that path). -/
def bumpAt (cnt : List ℕ) (i : ℕ) : List ℕ :=
  cnt.set i (cnt.getD i 0 + 1)

/-- Mid-scan state of `analyzeSingleMesh`'s single pass over the faces. -/
structure AnalyzeState where
  edgeCount : List (ℕ × ℕ)
  vertexFaceCount : List ℕ
  vertexEdgeSet : List (List ℕ)
  degenerateFaces : ℕ
deriving DecidableEq

/-- `edgeCount.set(edgeKey, (edgeCount.get(edgeKey) || 0) + 1)` on the
association-list model of `Map<number, number>`. -/
def mapBump (m : List (ℕ × ℕ)) (k : ℕ) : List (ℕ × ℕ) :=
  match m with
  | [] => [(k, 1)]
  | (k', c) :: rest =>
    if k' = k then (k', c + 1) :: rest else (k', c) :: mapBump rest k

/-- One face of `analyzeSingleMesh`'s single pass: degenerate faces are
counted and skipped; valid faces bump the three vertex face counters and,
per edge, bump the edge incidence and record the two endpoints (recovered
through `decodeEdgeKey`) in each other's neighbor sets. -/
def analyzeStep (positions : List ℚ) (st : AnalyzeState) (f : ℕ × ℕ × ℕ) :
    AnalyzeState :=
  if f.1 = f.2.1 ∨ f.2.1 = f.2.2 ∨ f.2.2 = f.1 then
    { st with degenerateFaces := st.degenerateFaces + 1 }
  else if isZeroAreaFace positions f.1 f.2.1 f.2.2 then
    { st with degenerateFaces := st.degenerateFaces + 1 }
  else
    let vfc := bumpAt (bumpAt (bumpAt st.vertexFaceCount f.1) f.2.1) f.2.2
    let edges := [getEdgeKey f.1 f.2.1, getEdgeKey f.2.1 f.2.2, getEdgeKey f.2.2 f.1]
    edges.foldl (fun st ek =>
      let p := decodeEdgeKey ek
      let ves1 := st.vertexEdgeSet.set p.1 (setAdd (st.vertexEdgeSet.getD p.1 []) p.2)
      let ves2 := ves1.set p.2 (setAdd (ves1.getD p.2 []) p.1)
      { st with edgeCount := mapBump st.edgeCount ek, vertexEdgeSet := ves2 })
      { st with vertexFaceCount := vfc }

/-- The per-mesh defect report of `analyzeSingleMesh`. -/
structure GeometryAnalysis where
  vertices : ℕ
  faces : ℕ
  duplicateVertices : ℕ
  looseVertices : ℕ
  nonManifoldEdges : ℕ
  nonManifoldVertices : ℕ
  degenerateFaces : ℕ
  boundaryEdges : ℕ

/-- `GeometryRepairer.analyzeSingleMesh`: duplicate count by spatial hash;
for indexed geometry a single pass over the faces, then edge incidence
classification (`== 1` boundary, `> 2` non-manifold) and the per-vertex
loose / non-manifold checks; non-indexed geometry only reports vertex,
face and duplicate counts. -/
def analyzeSingleMesh (g : BufferGeometry) : GeometryAnalysis :=
  let vertices := g.positions.length / 3
  let dup := countDuplicateVerticesFast g.positions
  match g.index with
  | none =>
    { vertices := vertices, faces := g.positions.length / 9
      duplicateVertices := dup, looseVertices := 0, nonManifoldEdges := 0
      nonManifoldVertices := 0, degenerateFaces := 0, boundaryEdges := 0 }
  | some indices =>
    let st := (triples indices).foldl (analyzeStep g.positions)
      ⟨[], List.replicate vertices 0, List.replicate vertices [], 0⟩
    { vertices := vertices
      faces := indices.length / 3
      duplicateVertices := dup
      looseVertices := (List.range vertices).countP
        (fun i => st.vertexFaceCount.getD i 0 == 0)
      nonManifoldEdges := st.edgeCount.countP (fun ec => 2 < ec.2)
      nonManifoldVertices := (List.range vertices).countP (fun i =>
        !(st.vertexFaceCount.getD i 0 == 0) &&
          (st.vertexFaceCount.getD i 0 + 1 < (st.vertexEdgeSet.getD i []).length))
      degenerateFaces := st.degenerateFaces
      boundaryEdges := st.edgeCount.countP (fun ec => ec.2 == 1) }

/-- Aggregated totals of `analyzeGeometry` over all meshes of the scene. -/
structure TotalStats where
  vertices : ℕ
  faces : ℕ
  duplicateVertices : ℕ
  looseVertices : ℕ
  nonManifoldEdges : ℕ
  nonManifoldVertices : ℕ
  degenerateFaces : ℕ
  boundaryEdges : ℕ

/-- `GeometryRepairer.analyzeGeometry`, totals part: per-mesh analyses
summed fieldwise (a scene is modelled as the list of extracted mesh
geometries). -/
def analyzeGeometry (scene : List BufferGeometry) : TotalStats :=
  scene.foldl (fun t g =>
    let a := analyzeSingleMesh g
    { vertices := t.vertices + a.vertices
      faces := t.faces + a.faces
      duplicateVertices := t.duplicateVertices + a.duplicateVertices
      looseVertices := t.looseVertices + a.looseVertices
      nonManifoldEdges := t.nonManifoldEdges + a.nonManifoldEdges
      nonManifoldVertices := t.nonManifoldVertices + a.nonManifoldVertices
      degenerateFaces := t.degenerateFaces + a.degenerateFaces
      boundaryEdges := t.boundaryEdges + a.boundaryEdges })
    ⟨0, 0, 0, 0, 0, 0, 0, 0⟩

/-- `GeometryRepairer.validateManifoldGeometry`: false iff the aggregated
analysis has a positive non-manifold-edge, non-manifold-vertex,
degenerate-face or loose-vertex count. -/
def validateManifoldGeometry (scene : List BufferGeometry) : Bool :=
  let t := analyzeGeometry scene
  !(decide (0 < t.nonManifoldEdges) || decide (0 < t.nonManifoldVertices) ||
    decide (0 < t.degenerateFaces) || decide (0 < t.looseVertices))

/-! ### String helpers for the OBJ text variant (src/lib/geometry_fix_obj.ts)

Lean's built-in `String.splitOn`/`trim` do not reduce in the kernel, so the
JS string primitives are modelled directly over the character list. -/

/-- Split a character list at every separator character, keeping empty
segments (the behaviour of JS `String.prototype.split` with a one-character
separator). -/
def splitCharsAux (c : Char) : List Char → List Char → List (List Char)
  | [], acc => [acc.reverse]
  | d :: r, acc =>
    if d = c then acc.reverse :: splitCharsAux c r [] else splitCharsAux c r (d :: acc)

/-- JS `s.split(sep)` for a one-character separator. -/
def splitOnChar (c : Char) (s : String) : List String :=
  (splitCharsAux c s.toList []).map (fun l => String.mk l)

/-- JS `s.trim()`. -/
def jsTrim (s : String) : String :=
  String.mk (((s.toList.dropWhile (fun ch => ch.isWhitespace)).reverse.dropWhile
    (fun ch => ch.isWhitespace)).reverse)

/-- JS `s.split(/\s+/)` on an already-trimmed string: whitespace-run
separated tokens (empty segments dropped). -/
def tokensOf (s : String) : List String :=
  ((splitCharsAux ' ' s.toList []).filter (fun l => !(l.isEmpty))).map (fun l => String.mk l)

def digitsToNat (ds : List Char) : ℕ :=
  ds.foldl (fun n c => n * 10 + (c.toNat - 48)) 0

/-- JS `parseInt(s, 10)`: optional sign then a maximal digit prefix; `NaN`
(no digits at all, or `parseInt(undefined)`) is `none`. -/
def parseIntJS (s : String) : Option ℤ :=
  let cs := s.toList.dropWhile (fun ch => ch.isWhitespace)
  let sgncs : ℤ × List Char :=
    match cs with
    | '-' :: r => (-1, r)
    | '+' :: r => (1, r)
    | _ => (1, cs)
  let ds := sgncs.2.takeWhile (fun ch => ch.isDigit)
  if ds.isEmpty then none else some (sgncs.1 * digitsToNat ds)

/-- JS `parseFloat(s)` restricted to plain decimal literals (no exponents —
the claims never exercise them); `NaN` is `none`. -/
def parseFloatJS (s : String) : Option ℚ :=
  let cs := s.toList.dropWhile (fun ch => ch.isWhitespace)
  let sgncs : ℚ × List Char :=
    match cs with
    | '-' :: r => (-1, r)
    | '+' :: r => (1, r)
    | _ => (1, cs)
  let ds := sgncs.2.takeWhile (fun ch => ch.isDigit)
  let rest := sgncs.2.drop ds.length
  let fds :=
    match rest with
    | '.' :: r => r.takeWhile (fun ch => ch.isDigit)
    | _ => []
  if ds.isEmpty && fds.isEmpty then none
  else some (sgncs.1 * ((digitsToNat ds : ℚ) + (digitsToNat fds : ℚ) / (10 ^ fds.length)))

/-- Decimal rendering of an integer-valued rational, agreeing with JS
number-to-string on integers (the only values the claims serialize; for
non-integers JS would print a decimal expansion). -/
def qToString (q : ℚ) : String :=
  if q.den = 1 then toString q.num else toString q

namespace ObjRepair

/-! The OBJ-text variant (`ObjGeometryRepairer`).  Repair operations work on
finite numeric meshes: a vertex is an exact `(x, y, z)` triple, a face a
list of 0-based vertex indices (plus its optional per-face uv list, carried
along untouched by the operations modelled here). -/

structure Face where
  vertices : List ℕ
  uv : Option (List (List ℚ)) := none
deriving DecidableEq

structure MeshData where
  vertices : List (ℚ × ℚ × ℚ)
  faces : List Face
  normals : Option (List (ℚ × ℚ × ℚ)) := none
  uvs : Option (List (List ℚ)) := none
deriving DecidableEq

/-- `ObjGeometryRepairer.mergeVertices`: same tolerance-key scan as the
native variant (`mergeScan`), survivors kept in first-seen order, each
face's indices rewritten through `indexRemap.get(i) ?? i`. -/
def mergeVertices (mesh : MeshData) (tolerance : ℚ) : MeshData × ℕ :=
  let s := mergeScan tolerance mesh.vertices
  let newVertices := s.keep.map (fun i => mesh.vertices.getD i (0, 0, 0))
  let newFaces := mesh.faces.map (fun f =>
    { f with vertices := f.vertices.map (fun i => (s.remap.get? i).getD i) })
  ({ mesh with vertices := newVertices, faces := newFaces }, s.merged)

/-- The edge keys `` `${min}-${max}` `` of a (possibly non-triangular) face:
consecutive vertices with wrap-around (`face.vertices[(i+1) % len]`). -/
def polyEdges (vs : List ℕ) : List (ℕ × ℕ) :=
  (List.range vs.length).map (fun i =>
    (min (vs.getD i 0) (vs.getD ((i + 1) % vs.length) 0),
     max (vs.getD i 0) (vs.getD ((i + 1) % vs.length) 0)))

/-- The edge-incidence count of the first pass of the OBJ variant's
`fixNonManifoldEdges` (`edgeCount.get(edgeKey)` after all faces are
counted): total number of edge slots over all faces carrying this key. -/
def edgeIncidence (faces : List Face) (e : ℕ × ℕ) : ℕ :=
  (faces.flatMap (fun f => polyEdges f.vertices)).countP (fun e' => e' == e)

/-- `ObjGeometryRepairer.fixNonManifoldEdges`: a face is marked for removal
as soon as ANY of its edges has incidence `> 2`; every marked face is
dropped and the count of marked faces returned. -/
def fixNonManifoldEdges (mesh : MeshData) : MeshData × ℕ :=
  let hasNonManifoldEdge : Face → Bool := fun f =>
    (polyEdges f.vertices).any (fun e => 2 < edgeIncidence mesh.faces e)
  let removedCount := mesh.faces.countP hasNonManifoldEdge
  let newFaces := mesh.faces.filter (fun f => !(hasNonManifoldEdge f))
  ({ mesh with faces := newFaces }, removedCount)

/-- Per-face normal of `recalculateNormals`: normalized cross product of the
first two edge vectors; the zero vector is left unnormalized.  `Math.sqrt`
is abstracted as the parameter `sq`. -/
def faceNormal (verts : List (ℚ × ℚ × ℚ)) (sq : ℚ → ℚ) (f : Face) : ℚ × ℚ × ℚ :=
  let v0 := verts.getD (f.vertices.getD 0 0) (0, 0, 0)
  let v1 := verts.getD (f.vertices.getD 1 0) (0, 0, 0)
  let v2 := verts.getD (f.vertices.getD 2 0) (0, 0, 0)
  let e1 := (v1.1 - v0.1, v1.2.1 - v0.2.1, v1.2.2 - v0.2.2)
  let e2 := (v2.1 - v0.1, v2.2.1 - v0.2.1, v2.2.2 - v0.2.2)
  let n := (e1.2.1 * e2.2.2 - e1.2.2 * e2.2.1,
            e1.2.2 * e2.1 - e1.1 * e2.2.2,
            e1.1 * e2.2.1 - e1.2.1 * e2.1)
  let len := sq (n.1 * n.1 + n.2.1 * n.2.1 + n.2.2 * n.2.2)
  if 0 < len then (n.1 / len, n.2.1 / len, n.2.2 / len) else n

/-- `ObjGeometryRepairer.recalculateNormals`.
`new Array(n).fill({x: 0, y: 0, z: 0})` stores `n` references to ONE shared
object; this is modelled by a reference array `refs` (all pointing at heap
cell 0) and a heap holding the single accumulator cell, so every
`vertexNormals[vertexIndex].x += …` and every in-place renormalization
targets whatever cell the reference designates — exactly the JS semantics.
Faces with fewer than 3 vertices are skipped.  Returns the mesh with
`normals` replaced by the values the references designate at the end. -/
def recalculateNormals (sq : ℚ → ℚ) (mesh : MeshData) : MeshData :=
  let refs : List ℕ := List.replicate mesh.vertices.length 0
  let heap0 : List (ℚ × ℚ × ℚ) := [(0, 0, 0)]
  let heap1 := mesh.faces.foldl (fun heap f =>
    if f.vertices.length < 3 then heap
    else
      let nrm := faceNormal mesh.vertices sq f
      f.vertices.foldl (fun heap vi =>
        let r := refs.getD vi 0
        let v := heap.getD r (0, 0, 0)
        heap.set r (v.1 + nrm.1, v.2.1 + nrm.2.1, v.2.2 + nrm.2.2)) heap) heap0
  let heap2 := refs.foldl (fun heap r =>
    let v := heap.getD r (0, 0, 0)
    let len := sq (v.1 * v.1 + v.2.1 * v.2.1 + v.2.2 * v.2.2)
    if 0 < len then heap.set r (v.1 / len, v.2.1 / len, v.2.2 / len) else heap) heap1
  { mesh with normals := some (refs.map (fun r => heap2.getD r (0, 0, 0))) }

/-- What the spec says `recalculateNormals` does (for comparison with the
code's behaviour): each vertex's normal is the renormalized sum of the
normalized face normals of exactly the faces incident to that vertex, and a
vertex whose accumulated normal has zero length keeps the zero vector. -/
def recalculateNormalsSpec (sq : ℚ → ℚ) (mesh : MeshData) : List (ℚ × ℚ × ℚ) :=
  (List.range mesh.vertices.length).map (fun vi =>
    let acc := (mesh.faces.filter (fun f =>
        3 ≤ f.vertices.length && f.vertices.contains vi)).foldl
      (fun a f =>
        let nrm := faceNormal mesh.vertices sq f
        (a.1 + nrm.1, a.2.1 + nrm.2.1, a.2.2 + nrm.2.2)) ((0 : ℚ), (0 : ℚ), (0 : ℚ))
    let len := sq (acc.1 * acc.1 + acc.2.1 * acc.2.1 + acc.2.2 * acc.2.2)
    if 0 < len then (acc.1 / len, acc.2.1 / len, acc.2.2 / len) else acc)

/-! Parsed OBJ data.  `parseObjFiles` runs `parseInt`/`parseFloat` on raw
tokens, so every parsed number can be `NaN`, modelled as `none`. -/

structure ParsedFace where
  vertices : List (Option ℤ)
  uv : Option (List (List (Option ℚ)))
deriving DecidableEq

structure ParsedMeshData where
  vertices : List (Option ℚ × Option ℚ × Option ℚ)
  faces : List ParsedFace
  normals : Option (List (Option ℚ × Option ℚ × Option ℚ))
  uvs : Option (List (List (Option ℚ)))
deriving DecidableEq

structure ParseState where
  vertices : List (Option ℚ × Option ℚ × Option ℚ)
  normals : List (Option ℚ × Option ℚ × Option ℚ)
  uvs : List (List (Option ℚ))
  faces : List ParsedFace

/-- State of the token loop of one `f` line: the growing `faceVertices` and
`faceUvs` arrays, plus one flag per `faces.push` performed so far recording
whether `faceUvs` was still empty at push time. -/
structure FaceLineState where
  fv : List (Option ℤ)
  fuv : List (List (Option ℚ))
  pushes : List Bool

/-- One token of an `f` line.  `parts[i].split("/")`; the vertex index is
read from `vertexData[1]` (as the source does), run through `parseInt` and
decremented — `parseInt(undefined)` (no second `/`-component) and
non-numeric tokens give `NaN` (`none`).  The uv branch fires when
`vertexData.length > 1` and `vertexData[1]` is truthy (non-empty), and only
pushes when `uvs[uvIndex]` exists.  Afterwards, when `faceVertices` holds at
least 3 entries, a face is pushed. -/
def faceLineStep (uvsSoFar : List (List (Option ℚ))) (st : FaceLineState)
    (part : String) : FaceLineState :=
  let vertexData := splitOnChar '/' part
  let vtx : Option ℤ := ((vertexData.get? 1).bind parseIntJS).map (fun n => n - 1)
  let fv := st.fv ++ [vtx]
  let fuv :=
    if 1 < vertexData.length && !((vertexData.getD 1 "").isEmpty) then
      match (parseIntJS (vertexData.getD 1 "")).map (fun n : ℤ => n - 1) with
      | some n =>
        if 0 ≤ n ∧ n.toNat < uvsSoFar.length then
          st.fuv ++ [uvsSoFar.getD n.toNat []]
        else st.fuv
      | none => st.fuv
    else st.fuv
  let pushes := if 3 ≤ fv.length then st.pushes ++ [fuv.isEmpty] else st.pushes
  { fv := fv, fuv := fuv, pushes := pushes }

/-- One line of `parseObjFiles`.  For an `f` line the JS loop pushes face
objects holding references to the SAME `faceVertices`/`faceUvs` arrays that
keep growing until the line ends, so every pushed face ends up observing
the final contents; only the `uv` field, captured as `undefined` while
`faceUvs` was still empty, stays `undefined`.  The model therefore
materializes the pushed faces from the final `fv`/`fuv` and the per-push
emptiness flags. -/
def parseLine (st : ParseState) (line : String) : ParseState :=
  let parts := tokensOf (jsTrim line)
  if parts.getD 0 "" = "v" then
    { st with vertices := st.vertices ++
        [(parseFloatJS (parts.getD 1 ""), parseFloatJS (parts.getD 2 ""),
          parseFloatJS (parts.getD 3 ""))] }
  else if parts.getD 0 "" = "vn" then
    { st with normals := st.normals ++
        [(parseFloatJS (parts.getD 1 ""), parseFloatJS (parts.getD 2 ""),
          parseFloatJS (parts.getD 3 ""))] }
  else if parts.getD 0 "" = "vt" then
    { st with uvs := st.uvs ++
        [[parseFloatJS (parts.getD 1 ""), parseFloatJS (parts.getD 2 "")]] }
  else if parts.getD 0 "" = "f" then
    let fl := (parts.drop 1).foldl (faceLineStep st.uvs) ⟨[], [], []⟩
    { st with faces := st.faces ++ fl.pushes.map (fun wasEmpty =>
        { vertices := fl.fv, uv := if wasEmpty then none else some fl.fuv }) }
  else st

/-- `ObjGeometryRepairer.parseObjFiles` (the source wraps the single parsed
mesh in a one-element array; the model returns the mesh itself). -/
def parseObjFiles (objContent : String) : ParsedMeshData :=
  let st := (splitOnChar '\n' objContent).foldl parseLine ⟨[], [], [], []⟩
  { vertices := st.vertices
    faces := st.faces
    normals := if 0 < st.normals.length then some st.normals else none
    uvs := if 0 < st.uvs.length then some st.uvs else none }

/-- `ObjGeometryRepairer.meshDataToObj`: `v`/`vn`/`vt` lines followed by
1-based `f` lines, joined with newlines. -/
def meshDataToObj (mesh : MeshData) : String :=
  let vLines := mesh.vertices.map (fun v =>
    "v " ++ qToString v.1 ++ " " ++ qToString v.2.1 ++ " " ++ qToString v.2.2)
  let nLines := (mesh.normals.getD []).map (fun n =>
    "vn " ++ qToString n.1 ++ " " ++ qToString n.2.1 ++ " " ++ qToString n.2.2)
  let tLines := (mesh.uvs.getD []).map (fun uv =>
    "vt " ++ qToString (uv.getD 0 0) ++ " " ++ qToString (uv.getD 1 0))
  let fLines := mesh.faces.map (fun f =>
    "f " ++ String.intercalate " " (f.vertices.map (fun v => toString (v + 1))))
  String.intercalate "\n" (vLines ++ nLines ++ tLines ++ fLines)

end ObjRepair

/-! ### Claim C7: soft precondition policy on non-indexed geometry -/

/-- Claim C7: invoked on non-indexed geometry (no index buffer),
remove-loose-vertices, fix-non-manifold-edges and remove-degenerate-faces
do not fail, return 0, and leave the geometry (in particular its
position/normal/uv buffers) unchanged. -/
theorem nonIndexed_ops_noop (g : BufferGeometry) (h : g.index = none) :
    removeLooseVerticesForMesh g = (g, 0) ∧
    fixNonManifoldEdgesForMesh g = (g, 0) ∧
    removeDegenerateFacesForMesh g = (g, 0) := by
  refine ⟨?_, ?_, ?_⟩ <;>
    simp [removeLooseVerticesForMesh, fixNonManifoldEdgesForMesh,
      removeDegenerateFacesForMesh, h]

/-- Witness for C7 at a concrete non-indexed geometry. -/
theorem nonIndexed_ops_noop_witness :
    ({ positions := [1, 2, 3], normals := none, uvs := none,
       index := none } : BufferGeometry).index = none ∧
    removeLooseVerticesForMesh
      { positions := [1, 2, 3], normals := none, uvs := none, index := none } =
      ({ positions := [1, 2, 3], normals := none, uvs := none, index := none }, 0) :=
  ⟨rfl, (nonIndexed_ops_noop
    { positions := [1, 2, 3], normals := none, uvs := none, index := none } rfl).1⟩

/-! ### Claim C1: fix-non-manifold-edges -/

/-- `Map.get` on the edge → face-list association map. -/
def emGet (m : List ((ℕ × ℕ) × List ℕ)) (k : ℕ × ℕ) : Option (List ℕ) :=
  match m with
  | [] => none
  | (k', l) :: rest => if k' = k then some l else emGet rest k

/-- The face list of edge `e` with a missing entry read as `[]`. -/
def emGetL (m : List ((ℕ × ℕ) × List ℕ)) (k : ℕ × ℕ) : List ℕ :=
  (emGet m k).getD []

/-- All (edge, face-index) pushes of the first pass of
`fixNonManifoldEdgesForMesh`, in execution order. -/
def edgePushes (faces : List (ℕ × ℕ × ℕ)) : List ((ℕ × ℕ) × ℕ) :=
  faces.enum.flatMap (fun fi => (faceEdges fi.2).map (fun e => (e, fi.1)))

/-- The face list the edge map associates to edge `e`, written declaratively:
the face indices whose faces push `e`, in push order. -/
def edgeFaceList (faces : List (ℕ × ℕ × ℕ)) (e : ℕ × ℕ) : List ℕ :=
  ((edgePushes faces).filter (fun p => decide (p.1 = e))).map (fun p => p.2)

lemma emGetL_emPush (m : List ((ℕ × ℕ) × List ℕ)) (k : ℕ × ℕ) (i : ℕ) (e : ℕ × ℕ) :
    emGetL (emPush m k i) e = emGetL m e ++ (if k = e then [i] else []) := by
  induction m with
  | nil =>
    by_cases hk : k = e
    · subst hk; simp [emPush, emGetL, emGet]
    · simp [emPush, emGetL, emGet, hk]
  | cons kl rest ih =>
    obtain ⟨k', l⟩ := kl
    by_cases hk' : k' = k
    · subst hk'
      by_cases he : k' = e
      · subst he; simp [emPush, emGetL, emGet]
      · simp [emPush, emGetL, emGet, he]
    · by_cases he : k' = e
      · have hke : ¬(k = e) := fun hc => hk' (he.trans hc.symm)
        have hek : ¬(e = k) := fun hc => hke hc.symm
        simp [emPush, emGetL, emGet, hk', he, hke, hek]
      · simp only [emPush, if_neg hk', emGetL, emGet, if_neg he]
        simpa [emGetL] using ih

lemma emGetL_foldl (ps : List ((ℕ × ℕ) × ℕ)) (m : List ((ℕ × ℕ) × List ℕ)) (e : ℕ × ℕ) :
    emGetL (ps.foldl (fun m p => emPush m p.1 p.2) m) e =
      emGetL m e ++ (ps.filter (fun p => decide (p.1 = e))).map (fun p => p.2) := by
  induction ps generalizing m with
  | nil => simp
  | cons p ps ih =>
    rw [List.foldl_cons, ih, emGetL_emPush]
    by_cases hp : p.1 = e <;> simp [hp]

lemma buildEdgeMap_eq_foldl (faces : List (ℕ × ℕ × ℕ)) :
    buildEdgeMap faces = (edgePushes faces).foldl (fun m p => emPush m p.1 p.2) [] := by
  unfold buildEdgeMap edgePushes
  rw [foldl_flatMap]
  simp only [List.foldl_map]

/-- The operational edge map agrees with the declarative per-edge face list. -/
lemma emGetL_buildEdgeMap (faces : List (ℕ × ℕ × ℕ)) (e : ℕ × ℕ) :
    emGetL (buildEdgeMap faces) e = edgeFaceList faces e := by
  rw [buildEdgeMap_eq_foldl, emGetL_foldl]
  simp [emGetL, emGet, edgeFaceList]

lemma emGet_mem {m : List ((ℕ × ℕ) × List ℕ)} {e : ℕ × ℕ} {l : List ℕ}
    (h : emGet m e = some l) : (e, l) ∈ m := by
  induction m with
  | nil => simp [emGet] at h
  | cons kl rest ih =>
    obtain ⟨k', l'⟩ := kl
    by_cases hk : k' = e
    · subst hk
      simp [emGet] at h
      simp [h]
    · simp [emGet, hk] at h
      exact List.mem_cons_of_mem _ (ih h)

lemma emPush_keys (m : List ((ℕ × ℕ) × List ℕ)) (k : ℕ × ℕ) (i : ℕ) :
    (emPush m k i).map Prod.fst =
      if k ∈ m.map Prod.fst then m.map Prod.fst else m.map Prod.fst ++ [k] := by
  induction m with
  | nil => simp [emPush]
  | cons kl rest ih =>
    obtain ⟨k', l⟩ := kl
    have hkk : ∀ h : ¬ k' = k, ¬ k = k' := fun h hc => h hc.symm
    by_cases hk : k' = k
    · subst hk; simp [emPush]
    · simp only [emPush, if_neg hk, List.map_cons, ih]
      by_cases hmem : k ∈ rest.map Prod.fst
      · simp [hmem, List.mem_cons, hkk hk]
      · simp [hmem, List.mem_cons, hkk hk]

lemma emPush_keys_nodup {m : List ((ℕ × ℕ) × List ℕ)} (k : ℕ × ℕ) (i : ℕ)
    (h : (m.map Prod.fst).Nodup) : ((emPush m k i).map Prod.fst).Nodup := by
  rw [emPush_keys]
  by_cases hmem : k ∈ m.map Prod.fst
  · simpa [hmem]
  · rw [if_neg hmem, List.nodup_append_comm, List.singleton_append, List.nodup_cons]
    exact ⟨hmem, h⟩

lemma buildEdgeMap_keys_nodup (faces : List (ℕ × ℕ × ℕ)) :
    ((buildEdgeMap faces).map Prod.fst).Nodup := by
  rw [buildEdgeMap_eq_foldl]
  generalize edgePushes faces = ps
  have : ∀ (ps : List ((ℕ × ℕ) × ℕ)) (m : List ((ℕ × ℕ) × List ℕ)),
      (m.map Prod.fst).Nodup →
      (((ps.foldl (fun m p => emPush m p.1 p.2) m)).map Prod.fst).Nodup := by
    intro ps
    induction ps with
    | nil => intro m hm; exact hm
    | cons p ps ih => intro m hm; exact ih _ (emPush_keys_nodup _ _ hm)
  exact this ps [] (by simp)

lemma emGet_eq_of_mem {m : List ((ℕ × ℕ) × List ℕ)} {e : ℕ × ℕ} {l : List ℕ}
    (hnd : (m.map Prod.fst).Nodup) (h : (e, l) ∈ m) : emGet m e = some l := by
  induction m with
  | nil => simp at h
  | cons kl rest ih =>
    obtain ⟨k', l'⟩ := kl
    rw [List.map_cons, List.nodup_cons] at hnd
    rcases List.mem_cons.mp h with heq | hmem
    · injection heq with h1 h2
      subst h1; subst h2
      simp [emGet]
    · have hmap : e ∈ rest.map Prod.fst := List.mem_map.mpr ⟨(e, l), hmem, rfl⟩
      have hk : ¬ k' = e := fun hc => hnd.1 (hc ▸ hmap)
      simp only [emGet, if_neg hk]
      exact ih hnd.2 hmem

lemma mem_dedupAppend (l acc : List ℕ) (x : ℕ) :
    (x ∈ l.foldl (fun acc f => if acc.contains f then acc else acc ++ [f]) acc) ↔
      x ∈ acc ∨ x ∈ l := by
  induction l generalizing acc with
  | nil => simp
  | cons f l ih =>
    rw [List.foldl_cons]
    by_cases hf : acc.contains f
    · rw [if_pos hf, ih]
      have hfacc : f ∈ acc := by simpa using hf
      constructor
      · rintro (h | h)
        · exact Or.inl h
        · exact Or.inr (List.mem_cons_of_mem _ h)
      · rintro (h | h)
        · exact Or.inl h
        · rcases List.mem_cons.mp h with rfl | h
          · exact Or.inl hfacc
          · exact Or.inr h
    · rw [if_neg hf, ih]
      simp only [List.mem_append, List.mem_singleton, List.mem_cons]
      tauto

lemma mem_facesToRemove (m : List ((ℕ × ℕ) × List ℕ)) (x : ℕ) :
    x ∈ facesToRemove m ↔ ∃ el ∈ m, x ∈ el.2.drop 2 := by
  have main : ∀ (m : List ((ℕ × ℕ) × List ℕ)) (acc : List ℕ),
      (x ∈ m.foldl (fun acc el =>
        if 2 < el.2.length then
          (el.2.drop 2).foldl (fun acc f => if acc.contains f then acc else acc ++ [f]) acc
        else acc) acc) ↔ x ∈ acc ∨ ∃ el ∈ m, x ∈ el.2.drop 2 := by
    intro m
    induction m with
    | nil => simp
    | cons el m ih =>
      intro acc
      rw [List.foldl_cons]
      by_cases hlen : 2 < el.2.length
      · rw [if_pos hlen, ih, mem_dedupAppend]
        constructor
        · rintro ((h | h) | ⟨el', hel', hx⟩)
          · exact Or.inl h
          · exact Or.inr ⟨el, List.mem_cons_self el m, h⟩
          · exact Or.inr ⟨el', List.mem_cons_of_mem _ hel', hx⟩
        · rintro (h | ⟨el', hel', hx⟩)
          · exact Or.inl (Or.inl h)
          · rcases List.mem_cons.mp hel' with rfl | hel'
            · exact Or.inl (Or.inr hx)
            · exact Or.inr ⟨el', hel', hx⟩
      · rw [if_neg hlen, ih]
        constructor
        · rintro (h | ⟨el', hel', hx⟩)
          · exact Or.inl h
          · exact Or.inr ⟨el', List.mem_cons_of_mem _ hel', hx⟩
        · rintro (h | ⟨el', hel', hx⟩)
          · exact Or.inl h
          · rcases List.mem_cons.mp hel' with rfl | hel'
            · have hnil : el'.2.drop 2 = [] := List.drop_eq_nil_of_le (by omega)
              rw [hnil] at hx
              exact absurd hx (List.not_mem_nil x)
            · exact Or.inr ⟨el', hel', hx⟩
  unfold facesToRemove
  rw [main]
  simp

lemma two_lt_length_of_mem_drop {l : List ℕ} {x : ℕ} (h : x ∈ l.drop 2) :
    2 < l.length := by
  by_contra hle
  rw [List.drop_eq_nil_of_le (by omega)] at h
  simp at h

/-- The faces `fixNonManifoldEdgesForMesh` removes are exactly the faces
that appear strictly after the first two entries of some edge's
incident-face list. -/
lemma facesToRemove_characterization (faces : List (ℕ × ℕ × ℕ)) (x : ℕ) :
    x ∈ facesToRemove (buildEdgeMap faces) ↔
      ∃ e, x ∈ (edgeFaceList faces e).drop 2 := by
  rw [mem_facesToRemove]
  constructor
  · rintro ⟨⟨e, l⟩, hel, hx⟩
    have hget := emGet_eq_of_mem (buildEdgeMap_keys_nodup faces) hel
    have hl : l = edgeFaceList faces e := by
      simpa [emGetL, hget] using emGetL_buildEdgeMap faces e
    exact ⟨e, hl ▸ hx⟩
  · rintro ⟨e, hx⟩
    have hne : edgeFaceList faces e ≠ [] := by
      intro hc
      rw [hc] at hx
      simp at hx
    rcases hget : emGet (buildEdgeMap faces) e with _ | l
    · have h2 : ([] : List ℕ) = edgeFaceList faces e := by
        simpa [emGetL, hget] using emGetL_buildEdgeMap faces e
      exact absurd h2.symm hne
    · have h2 : l = edgeFaceList faces e := by
        simpa [emGetL, hget] using emGetL_buildEdgeMap faces e
      have hmem : (e, l) ∈ buildEdgeMap faces := emGet_mem hget
      refine ⟨(e, l), hmem, ?_⟩
      rw [h2]
      exact hx

/-- Three triangles all sharing the edge `(0, 1)` — the "fan of 3" of the
spec's non-manifold construction scenario — as native indexed geometry. -/
def mesh3Native : BufferGeometry :=
  { positions := [0, 0, 0, 1, 0, 0, 0, 1, 0, 0, 0, 1, 1, 1, 1]
    normals := none
    uvs := none
    index := some [0, 1, 2, 0, 1, 3, 0, 1, 4] }

/-- The same "fan of 3" mesh in the OBJ-variant representation. -/
def mesh3Obj : ObjRepair.MeshData :=
  { vertices := [(0, 0, 0), (1, 0, 0), (0, 1, 0), (0, 0, 1), (1, 1, 1)]
    faces := [{ vertices := [0, 1, 2] }, { vertices := [0, 1, 3] },
              { vertices := [0, 1, 4] }] }

/-- Counterexample for claim C1 as stated: the claim asserts that BOTH
implementations remove exactly the faces beyond the first two per
over-shared edge — in particular exactly 1 of the 3 faces of a 3-triangle
fan.  The OBJ-text variant `fixNonManifoldEdges` removes all 3 faces of the
fan (every face touching the non-manifold edge), not 1. -/
theorem fixNonManifoldEdges_obj_removes_all :
    (ObjRepair.fixNonManifoldEdges mesh3Obj).2 = 3 ∧
    ¬ ((ObjRepair.fixNonManifoldEdges mesh3Obj).2 = 1) := by
  decide

/-- Claim C1 (amended): the NATIVE implementation removes, for each edge
incident to more than 2 faces, exactly the faces beyond the first 2
encountered in face order (the removal set is characterized by membership
in some edge's face list after its first two entries); on the 3-triangle
fan it removes exactly 1 of the 3 faces, leaving the shared edge with
incidence 2.  The OBJ-text variant instead removes EVERY face incident to
a non-manifold edge: on the same fan it removes all 3 faces, leaving the
shared edge with incidence 0. -/
theorem fixNonManifoldEdges_keepsFirstTwo :
    (∀ (faces : List (ℕ × ℕ × ℕ)) (x : ℕ),
      x ∈ facesToRemove (buildEdgeMap faces) ↔
        ∃ e, x ∈ (edgeFaceList faces e).drop 2) ∧
    (fixNonManifoldEdgesForMesh mesh3Native).2 = 1 ∧
    (fixNonManifoldEdgesForMesh mesh3Native).1.index = some [0, 1, 2, 0, 1, 3] ∧
    (edgeFaceList (triples [0, 1, 2, 0, 1, 3]) (0, 1)).length = 2 ∧
    (ObjRepair.fixNonManifoldEdges mesh3Obj).2 = 3 ∧
    ObjRepair.edgeIncidence (ObjRepair.fixNonManifoldEdges mesh3Obj).1.faces (0, 1) = 0 :=
  ⟨facesToRemove_characterization, by decide, by decide, by decide, by decide, by decide⟩

/-! ### Claim C6: conservation of remove-loose-vertices -/

lemma flatTriples_length {α : Type} (l : List (α × α × α)) :
    (flatTriples l).length = 3 * l.length := by
  induction l with
  | nil => rfl
  | cons t l ih =>
    simp only [flatTriples, List.flatMap_cons] at ih ⊢
    simp [ih]
    omega

lemma countP_not_add (p : ℕ → Bool) (l : List ℕ) :
    l.countP p + l.countP (fun a => !(p a)) = l.length := by
  have := List.length_eq_countP_add_countP p l
  have hc : l.countP (fun a => !(p a)) = l.countP (fun a => decide ¬(p a = true)) := by
    refine List.countP_congr (fun a _ => ?_)
    cases p a <;> simp
  omega

/-- Claim C6: for indexed geometry whose index values are all below the
vertex count, remove-loose-vertices conserves vertices
(`newVertexCount + removedCount = oldVertexCount`), rebuilds an index
buffer of the same length (hence the same multiple of 3), and every rebuilt
index is strictly below the new vertex count. -/
theorem removeLooseVertices_conservation (g : BufferGeometry) (indices : List ℕ)
    (hidx : g.index = some indices)
    (h : ∀ i ∈ indices, i < g.positions.length / 3) :
    (removeLooseVerticesForMesh g).1.positions.length / 3 + (removeLooseVerticesForMesh g).2 =
      g.positions.length / 3 ∧
    ((removeLooseVerticesForMesh g).1.index.getD []).length = indices.length ∧
    (3 ∣ indices.length → 3 ∣ ((removeLooseVerticesForMesh g).1.index.getD []).length) ∧
    (∀ j ∈ (removeLooseVerticesForMesh g).1.index.getD [],
      j < (removeLooseVerticesForMesh g).1.positions.length / 3) := by
  have hred : removeLooseVerticesForMesh g =
      (updateMeshGeometry
        (flatTriples (((List.range (g.positions.length / 3)).filter
          (fun i => indices.contains i)).map (fun i => nthTriple g.positions i)))
        (g.normals.map (fun ns => flatTriples
          (((List.range (g.positions.length / 3)).filter
            (fun i => indices.contains i)).map (fun i => nthTriple ns i))))
        (g.uvs.map (fun us => rebuildUvs
          ((List.range (g.positions.length / 3)).filter (fun i => indices.contains i)) us))
        (some (indices.map (fun i =>
          ((List.range (g.positions.length / 3)).filter
            (fun i => indices.contains i)).indexOf i))),
       (List.range (g.positions.length / 3)).countP (fun i => !(indices.contains i))) := by
    unfold removeLooseVerticesForMesh
    rw [hidx]
  set vc := g.positions.length / 3 with hvc
  set keep := (List.range vc).filter (fun i => indices.contains i) with hkeep
  set newIndices := indices.map (fun i => keep.indexOf i) with hni
  have hkeepmem : ∀ i ∈ indices, i ∈ keep := by
    intro i hi
    rw [hkeep]
    refine List.mem_filter.mpr ⟨List.mem_range.mpr (h i hi), by simpa⟩
  have hposlen : (removeLooseVerticesForMesh g).1.positions.length = 3 * keep.length := by
    rw [hred]
    simp only [updateMeshGeometry]
    rw [flatTriples_length, List.length_map]
  have hnewvc : (removeLooseVerticesForMesh g).1.positions.length / 3 = keep.length := by
    omega
  have hidxval : (removeLooseVerticesForMesh g).1.index.getD [] = newIndices := by
    rw [hred]
    by_cases hnil : 0 < newIndices.length
    · simp [updateMeshGeometry, presentAttr, hnil]
    · have hz : newIndices = [] := List.length_eq_zero.mp (by omega)
      simp [updateMeshGeometry, presentAttr, hz]
  refine ⟨?_, ?_, ?_, ?_⟩
  · rw [hnewvc, hred]
    have hcount := countP_not_add (fun i => indices.contains i) (List.range vc)
    have hkl : keep.length = (List.range vc).countP (fun i => indices.contains i) := by
      rw [hkeep, List.countP_eq_length_filter]
    simp only [List.length_range] at hcount
    omega
  · rw [hidxval, hni, List.length_map]
  · intro hd
    rw [hidxval, hni, List.length_map]
    exact hd
  · intro j hj
    rw [hidxval, hni] at hj
    rcases List.mem_map.mp hj with ⟨i, hi, rfl⟩
    rw [hnewvc]
    exact List.indexOf_lt_length.mpr (hkeepmem i hi)

/-- Witness for C6 at a concrete geometry with one loose vertex. -/
theorem removeLooseVertices_conservation_witness :
    (({ positions := [0, 0, 0, 1, 0, 0, 0, 1, 0], normals := none, uvs := none,
        index := some [0, 1, 1] } : BufferGeometry).index = some [0, 1, 1]) ∧
    (∀ i ∈ [0, 1, 1],
      i < ({ positions := [0, 0, 0, 1, 0, 0, 0, 1, 0], normals := none, uvs := none,
             index := some [0, 1, 1] } : BufferGeometry).positions.length / 3) ∧
    ((removeLooseVerticesForMesh
        { positions := [0, 0, 0, 1, 0, 0, 0, 1, 0], normals := none, uvs := none,
          index := some [0, 1, 1] }).1.positions.length / 3 +
      (removeLooseVerticesForMesh
        { positions := [0, 0, 0, 1, 0, 0, 0, 1, 0], normals := none, uvs := none,
          index := some [0, 1, 1] }).2 = 3) :=
  ⟨rfl, by decide,
    (removeLooseVertices_conservation
      { positions := [0, 0, 0, 1, 0, 0, 0, 1, 0], normals := none, uvs := none,
        index := some [0, 1, 1] } [0, 1, 1] rfl (by decide)).1⟩

/-! ### Claim C5: idempotence of merge-vertices -/

lemma vmapLookup_eq_none {m : List ((ℚ × ℚ × ℚ) × ℕ)} {k : ℚ × ℚ × ℚ} :
    vmapLookup m k = none ↔ k ∉ m.map Prod.fst := by
  induction m with
  | nil => simp [vmapLookup]
  | cons kj rest ih =>
    obtain ⟨k', j⟩ := kj
    by_cases hk : k' = k
    · subst hk; simp [vmapLookup]
    · have hkk : ¬ k = k' := fun hc => hk hc.symm
      simp [vmapLookup, hk, ih, hkk]

lemma vmapLookup_mem {m : List ((ℚ × ℚ × ℚ) × ℕ)} {k : ℚ × ℚ × ℚ} {j : ℕ}
    (h : vmapLookup m k = some j) : (k, j) ∈ m := by
  induction m with
  | nil => simp [vmapLookup] at h
  | cons kj rest ih =>
    obtain ⟨k', j'⟩ := kj
    by_cases hk : k' = k
    · subst hk
      have h' : j' = j := by simpa [vmapLookup] using h
      subst h'
      exact List.mem_cons_self _ _
    · simp only [vmapLookup, if_neg hk] at h
      exact List.mem_cons_of_mem _ (ih h)

/-- Invariant of the merge scan: the map's keys are, in order, the quantized
keys of the surviving vertices; those keys are pairwise distinct; and every
new index stored in the map or in `indexRemap` is below the survivor count. -/
def mergeScanInv (tolerance : ℚ) (verts : List (ℚ × ℚ × ℚ)) (s : MergeScanState) : Prop :=
  s.vmap.map Prod.fst =
    s.keep.map (fun i => quantKey tolerance (verts.getD i (0, 0, 0))) ∧
  (s.keep.map (fun i => quantKey tolerance (verts.getD i (0, 0, 0)))).Nodup ∧
  (∀ kj ∈ s.vmap, kj.2 < s.keep.length) ∧
  (∀ j ∈ s.remap, j < s.keep.length)

lemma mergeScanInv_foldl (tolerance : ℚ) (verts : List (ℚ × ℚ × ℚ)) :
    ∀ (ps : List (ℕ × (ℚ × ℚ × ℚ))) (s : MergeScanState),
      (∀ p ∈ ps, verts.getD p.1 (0, 0, 0) = p.2) →
      mergeScanInv tolerance verts s →
      mergeScanInv tolerance verts (ps.foldl (mergeScanStep tolerance) s) := by
  intro ps
  induction ps with
  | nil => intro s _ hs; exact hs
  | cons p ps ih =>
    intro s hp hs
    rw [List.foldl_cons]
    refine ih _ (fun q hq => hp q (List.mem_cons_of_mem _ hq)) ?_
    obtain ⟨h1, h2, h3, h4⟩ := hs
    have hkey : quantKey tolerance p.2 =
        quantKey tolerance (verts.getD p.1 (0, 0, 0)) := by
      rw [hp p (List.mem_cons_self p ps)]
    rcases hlk : vmapLookup s.vmap (quantKey tolerance p.2) with _ | j
    · -- fresh key: the vertex survives
      simp only [mergeScanStep, hlk]
      refine ⟨?_, ?_, ?_, ?_⟩
      · simp only [List.map_append, List.map_cons, List.map_nil, h1, hkey]
      · rw [List.map_append, List.nodup_append_comm]
        simp only [List.map_cons, List.map_nil, List.singleton_append, List.nodup_cons]
        refine ⟨?_, h2⟩
        have := vmapLookup_eq_none.mp hlk
        rw [h1, hkey] at this
        exact this
      · intro kj hkj
        rcases List.mem_append.mp hkj with hold | hnew
        · have := h3 kj hold
          simp only [List.length_append, List.length_cons, List.length_nil]
          omega
        · simp only [List.mem_singleton] at hnew
          subst hnew
          simp only [List.length_append, List.length_cons, List.length_nil]
          omega
      · intro j hj
        rcases List.mem_append.mp hj with hold | hnew
        · have := h4 j hold
          simp only [List.length_append, List.length_cons, List.length_nil]
          omega
        · simp only [List.mem_singleton] at hnew
          subst hnew
          simp only [List.length_append, List.length_cons, List.length_nil]
          omega
    · -- key already present: the vertex merges away
      simp only [mergeScanStep, hlk]
      refine ⟨h1, h2, h3, ?_⟩
      intro x hx
      rcases List.mem_append.mp hx with hold | hnew
      · exact h4 x hold
      · simp only [List.mem_singleton] at hnew
        subst hnew
        exact h3 _ (vmapLookup_mem hlk)

lemma mergeScan_inv (tolerance : ℚ) (verts : List (ℚ × ℚ × ℚ)) :
    mergeScanInv tolerance verts (mergeScan tolerance verts) := by
  unfold mergeScan
  refine mergeScanInv_foldl tolerance verts verts.enum ⟨[], [], [], 0⟩ ?_ ?_
  · intro p hp
    obtain ⟨i, v⟩ := p
    obtain ⟨hlt, hv⟩ := List.mem_enum hp
    rw [List.getD_eq_getElem _ _ hlt]
    exact hv.symm
  · exact ⟨rfl, List.nodup_nil, by simp, by simp⟩

lemma mergeScan_remap_length_foldl (tolerance : ℚ) :
    ∀ (ps : List (ℕ × (ℚ × ℚ × ℚ))) (s : MergeScanState),
      (ps.foldl (mergeScanStep tolerance) s).remap.length = s.remap.length + ps.length := by
  intro ps
  induction ps with
  | nil => intro s; simp
  | cons p ps ih =>
    intro s
    rw [List.foldl_cons, ih]
    rcases hlk : vmapLookup s.vmap (quantKey tolerance p.2) with _ | j <;>
      simp [mergeScanStep, hlk] <;> omega

lemma mergeScan_remap_length (tolerance : ℚ) (verts : List (ℚ × ℚ × ℚ)) :
    (mergeScan tolerance verts).remap.length = verts.length := by
  unfold mergeScan
  rw [mergeScan_remap_length_foldl]
  simp [List.enum_length]

/-- A scan over vertices whose keys are all fresh (none in the map yet, and
pairwise distinct) keeps every vertex: no merges, survivors in order, and
the remap is the consecutive fresh indices. -/
lemma mergeScan_fresh (tolerance : ℚ) :
    ∀ (ps : List (ℕ × (ℚ × ℚ × ℚ))) (s : MergeScanState),
      (∀ p ∈ ps, quantKey tolerance p.2 ∉ s.vmap.map Prod.fst) →
      (ps.map (fun p => quantKey tolerance p.2)).Nodup →
      (ps.foldl (mergeScanStep tolerance) s).merged = s.merged ∧
      (ps.foldl (mergeScanStep tolerance) s).keep = s.keep ++ ps.map Prod.fst ∧
      (ps.foldl (mergeScanStep tolerance) s).remap =
        s.remap ++ List.range' s.keep.length ps.length ∧
      (ps.foldl (mergeScanStep tolerance) s).vmap.map Prod.fst =
        s.vmap.map Prod.fst ++ ps.map (fun p => quantKey tolerance p.2) := by
  intro ps
  induction ps with
  | nil => intro s _ _; simp
  | cons p ps ih =>
    intro s hfresh hnd
    have hlk : vmapLookup s.vmap (quantKey tolerance p.2) = none :=
      vmapLookup_eq_none.mpr (hfresh p (List.mem_cons_self p ps))
    rw [List.foldl_cons]
    simp only [mergeScanStep, hlk]
    rw [List.map_cons, List.nodup_cons] at hnd
    have hih := ih
      { vmap := s.vmap ++ [(quantKey tolerance p.2, s.keep.length)]
        keep := s.keep ++ [p.1]
        remap := s.remap ++ [s.keep.length]
        merged := s.merged }
      (by
        intro q hq
        simp only [List.map_append, List.map_cons, List.map_nil, List.mem_append,
          List.mem_singleton]
        rintro (hin | heq)
        · exact hfresh q (List.mem_cons_of_mem _ hq) hin
        · exact hnd.1 (List.mem_map.mpr ⟨q, hq, heq⟩) |>.elim)
      hnd.2
    obtain ⟨hm, hk, hr, hv⟩ := hih
    refine ⟨hm, ?_, ?_, ?_⟩
    · rw [hk]
      simp
    · rw [hr, List.length_cons, List.range'_succ]
      simp [List.append_assoc]
    · rw [hv]
      simp

/-- Scanning a vertex list with pairwise-distinct quantized keys merges
nothing and keeps everything, in place. -/
lemma mergeScan_nodup_id (tolerance : ℚ) (nv : List (ℚ × ℚ × ℚ))
    (hnd : (nv.map (quantKey tolerance)).Nodup) :
    (mergeScan tolerance nv).merged = 0 ∧
    (mergeScan tolerance nv).keep = List.range nv.length ∧
    (mergeScan tolerance nv).remap = List.range nv.length := by
  have henum : nv.enum.map (fun p => quantKey tolerance p.2) =
      nv.map (quantKey tolerance) := by
    have : (fun p : ℕ × (ℚ × ℚ × ℚ) => quantKey tolerance p.2) =
        (quantKey tolerance) ∘ Prod.snd := rfl
    rw [this, ← List.map_map, List.enum_map_snd]
  have h := mergeScan_fresh tolerance nv.enum ⟨[], [], [], 0⟩ (by simp)
    (by rw [henum]; exact hnd)
  unfold mergeScan
  refine ⟨h.1, ?_, ?_⟩
  · rw [h.2.1]
    simp [List.enum_map_fst]
  · rw [h.2.2.1]
    simp [List.enum_length, List.range_eq_range']

lemma map_getD_range {α : Type} (l : List α) (d : α) :
    (List.range l.length).map (fun i => l.getD i d) = l := by
  refine List.ext_getElem (by simp) ?_
  intro i h1 h2
  simp only [List.getElem_map, List.getElem_range]
  exact List.getD_eq_getElem l d h2

lemma getD_range_of_lt {n i : ℕ} (h : i < n) : (List.range n).getD i 0 = i := by
  rw [List.getD_eq_getElem _ _ (by simpa using h), List.getElem_range]

lemma get?_range_getD (n i : ℕ) : ((List.range n).get? i).getD i = i := by
  by_cases h : i < n
  · rw [List.get?_range h]
    rfl
  · have hnone : (List.range n).get? i = none :=
      List.get?_eq_none.mpr (by simpa using Nat.le_of_not_lt h)
    rw [hnone]
    rfl

lemma getD_mem {α : Type} (l : List α) (i : ℕ) (d : α) (h : i < l.length) :
    l.getD i d ∈ l := by
  rw [List.getD_eq_getElem _ _ h]
  exact List.getElem_mem h

lemma triples_flatTriples {α : Type} (L : List (α × α × α)) :
    triples (flatTriples L) = L := by
  induction L with
  | nil => rfl
  | cons t L ih =>
    obtain ⟨a, b, c⟩ := t
    have : flatTriples ((a, b, c) :: L) = a :: b :: c :: flatTriples L := by
      simp [flatTriples]
    rw [this, triples, ih]

lemma nthTriple_flatTriples (L : List (ℚ × ℚ × ℚ)) :
    ∀ i, i < L.length → nthTriple (flatTriples L) i = L.getD i (0, 0, 0) := by
  induction L with
  | nil => intro i hi; simp at hi
  | cons t L ih =>
    intro i hi
    obtain ⟨a, b, c⟩ := t
    have hflat : flatTriples ((a, b, c) :: L) = a :: b :: c :: flatTriples L := by
      simp [flatTriples]
    cases i with
    | zero => simp [hflat, nthTriple]
    | succ i =>
      have h3 : 3 * (i + 1) = 3 * i + 1 + 1 + 1 := by ring
      have h31 : 3 * (i + 1) + 1 = 3 * i + 1 + 1 + 1 + 1 := by ring
      have h32 : 3 * (i + 1) + 2 = 3 * i + 2 + 1 + 1 + 1 := by ring
      have hih := ih i (by simpa using hi)
      simp only [nthTriple] at hih
      simp only [nthTriple, hflat, h3, h31, h32, List.getD_cons_succ, List.getD_cons_zero]
      rw [hih]

lemma rebuildUvs_cons (i : ℕ) (keep : List ℕ) (us : List ℚ) :
    rebuildUvs (i :: keep) us =
      (if 2 * i + 1 < us.length then [us.getD (2 * i) 0, us.getD (2 * i + 1) 0] else []) ++
        rebuildUvs keep us := by
  simp [rebuildUvs]

lemma rebuildUvs_even (keep : List ℕ) (us : List ℚ) :
    ∃ m, (rebuildUvs keep us).length = 2 * m := by
  induction keep with
  | nil => exact ⟨0, rfl⟩
  | cons i keep ih =>
    obtain ⟨m, hm⟩ := ih
    rw [rebuildUvs_cons]
    by_cases h : 2 * i + 1 < us.length
    · exact ⟨m + 1, by rw [if_pos h]; simp [hm]; omega⟩
    · exact ⟨m, by rw [if_neg h]; simpa using hm⟩

lemma rebuildUvs_length_le (keep : List ℕ) (us : List ℚ) :
    (rebuildUvs keep us).length ≤ 2 * keep.length := by
  induction keep with
  | nil => simp [rebuildUvs]
  | cons i keep ih =>
    rw [rebuildUvs_cons]
    by_cases h : 2 * i + 1 < us.length
    · rw [if_pos h]; simp; omega
    · rw [if_neg h]; simp; omega

lemma rebuildUvs_nil_of_large (keep : List ℕ) (us : List ℚ)
    (h : ∀ i ∈ keep, ¬ (2 * i + 1 < us.length)) : rebuildUvs keep us = [] := by
  induction keep with
  | nil => rfl
  | cons i keep ih =>
    rw [rebuildUvs_cons, if_neg (h i (List.mem_cons_self i keep)),
      ih (fun j hj => h j (List.mem_cons_of_mem _ hj))]
    rfl

lemma rebuildUvs_range' (m : ℕ) :
    ∀ (s : ℕ) (us : List ℚ), us.length = 2 * s + 2 * m →
      rebuildUvs (List.range' s m) us = us.drop (2 * s) := by
  induction m with
  | zero =>
    intro s us h
    have hnil : us.drop (2 * s) = [] := List.drop_eq_nil_of_le (by omega)
    rw [hnil]
    rfl
  | succ m ih =>
    intro s us h
    rw [List.range'_succ, rebuildUvs_cons]
    have hcond : 2 * s + 1 < us.length := by omega
    rw [if_pos hcond, ih (s + 1) us (by omega)]
    have h1 : 2 * s < us.length := by omega
    rw [List.getD_eq_getElem _ _ h1, List.getD_eq_getElem _ _ hcond]
    rw [List.drop_eq_getElem_cons h1]
    have h21 : 2 * (s + 1) = 2 * s + 1 + 1 := by ring
    rw [List.drop_eq_getElem_cons hcond, h21]
    rfl

lemma rebuildUvs_range (us : List ℚ) (n m : ℕ) (hlen : us.length = 2 * m)
    (hm : m ≤ n) : rebuildUvs (List.range n) us = us := by
  have hsplit : List.range n = List.range' 0 m ++ List.range' m (n - m) := by
    have happend := List.range'_append 0 m (n - m) 1
    simp only [one_mul, zero_add] at happend
    rw [List.range_eq_range', happend]
    congr 1
    omega
  rw [hsplit]
  have happ : rebuildUvs (List.range' 0 m ++ List.range' m (n - m)) us =
      rebuildUvs (List.range' 0 m) us ++ rebuildUvs (List.range' m (n - m)) us := by
    simp [rebuildUvs, List.flatMap_append]
  rw [happ, rebuildUvs_range' m 0 us (by omega)]
  rw [rebuildUvs_nil_of_large _ _ ?_]
  · simp
  · intro i hi
    rw [List.mem_range'] at hi
    obtain ⟨k, hk, rfl⟩ := hi
    omega

lemma presentAttr_map_stable {α : Type} (o : Option (List α)) (B : List α → List α)
    (hB : ∀ l, o = some l → B l = l) :
    presentAttr ((presentAttr o).map B) = presentAttr o := by
  cases o with
  | none => rfl
  | some l =>
    by_cases h : 0 < l.length
    · simp [presentAttr, h, hB l rfl]
    · simp [presentAttr, h]

lemma mergeScan_keep_keys_nodup (tolerance : ℚ) (verts : List (ℚ × ℚ × ℚ)) :
    ((mergeScan tolerance verts).keep.map
      (fun i => quantKey tolerance (verts.getD i (0, 0, 0)))).Nodup :=
  (mergeScan_inv tolerance verts).2.1

lemma mergeScan_remap_lt (tolerance : ℚ) (verts : List (ℚ × ℚ × ℚ)) :
    ∀ j ∈ (mergeScan tolerance verts).remap, j < (mergeScan tolerance verts).keep.length :=
  (mergeScan_inv tolerance verts).2.2.2

lemma mergeScan_nv_nodup (tolerance : ℚ) (verts : List (ℚ × ℚ × ℚ)) :
    (((mergeScan tolerance verts).keep.map (fun i => verts.getD i (0, 0, 0))).map
      (quantKey tolerance)).Nodup := by
  rw [List.map_map]
  exact mergeScan_keep_keys_nodup tolerance verts

lemma triples_length {α : Type} : ∀ l : List α, (triples l).length = l.length / 3
  | [] => by simp [triples]
  | [_] => by simp [triples]
  | [_, _] => by simp [triples]
  | x :: y :: z :: rest => by
    rw [triples]
    have := triples_length rest
    simp only [List.length_cons] at *
    omega

lemma presentAttr_eq_some {α : Type} {o : Option (List α)} {l : List α}
    (h : presentAttr o = some l) : o = some l ∧ 0 < l.length := by
  cases o with
  | none => simp [presentAttr] at h
  | some l' =>
    by_cases hp : 0 < l'.length
    · have : l' = l := by simpa [presentAttr, hp] using h
      subst this
      exact ⟨rfl, hp⟩
    · simp [presentAttr, hp] at h

/-- A mesh whose vertices already have pairwise-distinct quantized keys is a
fixed point of the OBJ-variant merge, with zero merges reported. -/
lemma objMerge_of_nodup (m : ObjRepair.MeshData) (tolerance : ℚ)
    (hnd : (m.vertices.map (quantKey tolerance)).Nodup) :
    ObjRepair.mergeVertices m tolerance = (m, 0) := by
  obtain ⟨hm0, hkeep, hremap⟩ := mergeScan_nodup_id tolerance m.vertices hnd
  have hfun : (fun i => ((List.range m.vertices.length).get? i).getD i) =
      fun i : ℕ => i := funext (fun i => get?_range_getD _ i)
  simp only [ObjRepair.mergeVertices, hkeep, hremap, hm0, hfun]
  rw [map_getD_range]
  have hfaces : ∀ f : ObjRepair.Face,
      { f with vertices := f.vertices.map (fun i : ℕ => i) } = f := by
    intro f
    have hv : f.vertices.map (fun i : ℕ => i) = f.vertices := by
      simpa using List.map_id f.vertices
    rw [hv]
  simp only [hfaces, List.map_id']

/-- A geometry whose position triples have pairwise-distinct quantized keys
and whose buffers are consistently shaped (positions a whole number of
triples, normals three floats per vertex, uvs an even prefix, index values
in range, no degenerate empty attributes) is a fixed point of the native
merge, with zero merges reported. -/
lemma mergeVerticesForMesh_clean (g2 : BufferGeometry) (tolerance : ℚ)
    (hnd : ((triples g2.positions).map (quantKey tolerance)).Nodup)
    (hpos : ∃ M : List (ℚ × ℚ × ℚ), g2.positions = flatTriples M)
    (hnorm : ∀ ns, g2.normals = some ns →
      (∃ N : List (ℚ × ℚ × ℚ), ns = flatTriples N ∧
        N.length = (triples g2.positions).length) ∧ 0 < ns.length)
    (huv : ∀ us, g2.uvs = some us →
      (∃ m, us.length = 2 * m ∧ m ≤ (triples g2.positions).length) ∧ 0 < us.length)
    (hidx : ∀ idx, g2.index = some idx →
      (∀ j ∈ idx, j < (triples g2.positions).length) ∧ 0 < idx.length) :
    mergeVerticesForMesh g2 tolerance = (g2, 0) := by
  obtain ⟨hm0, hkeep, hremap⟩ := mergeScan_nodup_id tolerance (triples g2.positions) hnd
  simp only [mergeVerticesForMesh, hkeep, hremap, hm0]
  rw [map_getD_range]
  obtain ⟨M, hM⟩ := hpos
  have hMt : triples g2.positions = M := by rw [hM, triples_flatTriples]
  have hposid : flatTriples (triples g2.positions) = g2.positions := by
    rw [hMt, hM]
  have hn : ∀ o : Option (List ℚ), o = g2.normals →
      presentAttr (o.map (fun ns => flatTriples
        ((List.range (triples g2.positions).length).map (fun i => nthTriple ns i)))) = o := by
    intro o ho
    cases o with
    | none => rfl
    | some ns =>
      obtain ⟨⟨N, hNf, hNlen⟩, hns⟩ := hnorm ns ho.symm
      have hmap : (List.range (triples g2.positions).length).map
          (fun i => nthTriple ns i) = N := by
        rw [← hNlen]
        refine (List.map_congr_left ?_).trans (map_getD_range N (0, 0, 0))
        intro i hi
        rw [hNf]
        exact nthTriple_flatTriples N i (List.mem_range.mp hi)
      rw [Option.map_some', hmap, ← hNf]
      simp [presentAttr, hns]
  have hu : ∀ o : Option (List ℚ), o = g2.uvs →
      presentAttr (o.map (fun us =>
        rebuildUvs (List.range (triples g2.positions).length) us)) = o := by
    intro o ho
    cases o with
    | none => rfl
    | some us =>
      obtain ⟨⟨m, hm, hmn⟩, hus⟩ := huv us ho.symm
      rw [Option.map_some', rebuildUvs_range us _ m hm hmn]
      simp [presentAttr, hus]
  have hi : ∀ o : Option (List ℕ), o = g2.index →
      presentAttr (o.map (fun idx =>
        idx.map (fun i => (List.range (triples g2.positions).length).getD i 0))) = o := by
    intro o ho
    cases o with
    | none => rfl
    | some idx =>
      obtain ⟨hb, hil⟩ := hidx idx ho.symm
      have hmap : idx.map (fun i =>
          (List.range (triples g2.positions).length).getD i 0) = idx := by
        refine (List.map_congr_left ?_).trans (List.map_id idx)
        intro j hj
        exact getD_range_of_lt (hb j hj)
      rw [Option.map_some', hmap]
      simp [presentAttr, hil]
  rw [hposid]
  obtain ⟨pos, onorm, ouv, oidx⟩ := g2
  simp only at hn hu hi ⊢
  rw [updateMeshGeometry, hn onorm rfl, hu ouv rfl, hi oidx rfl]

/-- Claim C5: merge-vertices is idempotent.  For the OBJ-text variant this
holds for every mesh and tolerance; for the native variant, for every
geometry whose index values are in range (the precondition the source
assumes when it asserts `indexRemap.get(i)!`).  In both cases the second
run reports 0 additional merges and returns the geometry unchanged. -/
theorem mergeVertices_idempotent :
    (∀ (mesh : ObjRepair.MeshData) (tolerance : ℚ),
      ObjRepair.mergeVertices (ObjRepair.mergeVertices mesh tolerance).1 tolerance =
        ((ObjRepair.mergeVertices mesh tolerance).1, 0)) ∧
    (∀ (g : BufferGeometry) (tolerance : ℚ),
      (∀ i ∈ g.index.getD [], i < g.positions.length / 3) →
      mergeVerticesForMesh (mergeVerticesForMesh g tolerance).1 tolerance =
        ((mergeVerticesForMesh g tolerance).1, 0)) := by
  constructor
  · intro mesh tolerance
    exact objMerge_of_nodup _ tolerance (mergeScan_nv_nodup tolerance mesh.vertices)
  · intro g tolerance h
    have hps : (mergeVerticesForMesh g tolerance).1.positions =
        flatTriples ((mergeScan tolerance (triples g.positions)).keep.map
          (fun i => (triples g.positions).getD i (0, 0, 0))) := rfl
    have hL : triples (mergeVerticesForMesh g tolerance).1.positions =
        (mergeScan tolerance (triples g.positions)).keep.map
          (fun i => (triples g.positions).getD i (0, 0, 0)) := by
      rw [hps, triples_flatTriples]
    have hn : (mergeVerticesForMesh g tolerance).1.normals =
        presentAttr (g.normals.map (fun ns => flatTriples
          ((mergeScan tolerance (triples g.positions)).keep.map
            (fun i => nthTriple ns i)))) := rfl
    have hu : (mergeVerticesForMesh g tolerance).1.uvs =
        presentAttr (g.uvs.map (fun us =>
          rebuildUvs (mergeScan tolerance (triples g.positions)).keep us)) := rfl
    have hx : (mergeVerticesForMesh g tolerance).1.index =
        presentAttr (g.index.map (fun idx => idx.map (fun i =>
          (mergeScan tolerance (triples g.positions)).remap.getD i 0))) := rfl
    refine mergeVerticesForMesh_clean _ tolerance ?_ ?_ ?_ ?_ ?_
    · rw [hL]
      exact mergeScan_nv_nodup tolerance (triples g.positions)
    · exact ⟨_, hps⟩
    · intro ns hns
      rw [hn] at hns
      obtain ⟨hsome, hlen⟩ := presentAttr_eq_some hns
      obtain ⟨ns₀, hns₀, hB⟩ := Option.map_eq_some'.mp hsome
      refine ⟨⟨(mergeScan tolerance (triples g.positions)).keep.map
        (fun i => nthTriple ns₀ i), hB.symm, ?_⟩, hlen⟩
      rw [hL]
      simp
    · intro us hus
      rw [hu] at hus
      obtain ⟨hsome, hlen⟩ := presentAttr_eq_some hus
      obtain ⟨us₀, hus₀, hB⟩ := Option.map_eq_some'.mp hsome
      obtain ⟨m, hm⟩ := rebuildUvs_even (mergeScan tolerance (triples g.positions)).keep us₀
      refine ⟨⟨m, ?_, ?_⟩, hlen⟩
      · rw [← hB]
        exact hm
      · have hle := rebuildUvs_length_le
          (mergeScan tolerance (triples g.positions)).keep us₀
        rw [hL]
        simp only [List.length_map]
        omega
    · intro idx hidx
      rw [hx] at hidx
      obtain ⟨hsome, hlen⟩ := presentAttr_eq_some hidx
      obtain ⟨idx₀, hidx₀, hB⟩ := Option.map_eq_some'.mp hsome
      refine ⟨?_, hlen⟩
      intro j hj
      rw [← hB] at hj
      obtain ⟨i, hi, rfl⟩ := List.mem_map.mp hj
      have hiv : i < g.positions.length / 3 := by
        refine h i ?_
        rw [hidx₀]
        exact hi
      have hrl : (mergeScan tolerance (triples g.positions)).remap.length =
          g.positions.length / 3 := by
        rw [mergeScan_remap_length, triples_length]
      have hmem : (mergeScan tolerance (triples g.positions)).remap.getD i 0 ∈
          (mergeScan tolerance (triples g.positions)).remap :=
        getD_mem _ i 0 (by omega)
      have := mergeScan_remap_lt tolerance (triples g.positions) _ hmem
      rw [hL]
      simpa using this

/-- Witness for C5's native half at a concrete indexed geometry with one
duplicated vertex. -/
theorem mergeVertices_idempotent_witness :
    (∀ i ∈ ({ positions := [0, 0, 0, 1, 0, 0, 0, 0, 0], normals := none, uvs := none,
              index := some [0, 1, 2] } : BufferGeometry).index.getD [],
      i < ({ positions := [0, 0, 0, 1, 0, 0, 0, 0, 0], normals := none, uvs := none,
             index := some [0, 1, 2] } : BufferGeometry).positions.length / 3) ∧
    mergeVerticesForMesh
      (mergeVerticesForMesh
        { positions := [0, 0, 0, 1, 0, 0, 0, 0, 0], normals := none, uvs := none,
          index := some [0, 1, 2] } (1 / 1000000)).1 (1 / 1000000) =
      ((mergeVerticesForMesh
        { positions := [0, 0, 0, 1, 0, 0, 0, 0, 0], normals := none, uvs := none,
          index := some [0, 1, 2] } (1 / 1000000)).1, 0) :=
  ⟨by decide,
    mergeVertices_idempotent.2
      { positions := [0, 0, 0, 1, 0, 0, 0, 0, 0], normals := none, uvs := none,
        index := some [0, 1, 2] } (1 / 1000000) (by decide)⟩

/-! ### Claim C8: validateManifoldGeometry -/

/-- The spec's boundary-case mesh: a flat unit quad split into the two
triangles `(0,1,2)` and `(0,2,3)` sharing the diagonal `0–2`. -/
def quadGeometry : BufferGeometry :=
  { positions := [0, 0, 0, 1, 0, 0, 1, 1, 0, 0, 1, 0]
    normals := none
    uvs := none
    index := some [0, 1, 2, 0, 2, 3] }

lemma quad_zeroArea_1 : isZeroAreaFace quadGeometry.positions 0 1 2 = false := by
  simp only [isZeroAreaFace, nthTriple, defaultTolerance, quadGeometry]
  norm_num

lemma quad_zeroArea_2 : isZeroAreaFace quadGeometry.positions 0 2 3 = false := by
  simp only [isZeroAreaFace, nthTriple, defaultTolerance, quadGeometry]
  norm_num

lemma quad_scan :
    (triples [0, 1, 2, 0, 2, 3]).foldl (analyzeStep quadGeometry.positions)
      ⟨[], List.replicate 4 0, List.replicate 4 [], 0⟩ =
      ⟨[(2, 1), (8, 1), (5, 2), (18, 1), (9, 1)], [2, 1, 2, 1],
        [[1, 2, 3], [0, 2], [1, 0, 3], [2, 0]], 0⟩ := by
  have h1 : ∀ st : AnalyzeState, analyzeStep quadGeometry.positions st (0, 1, 2) =
      (let vfc := bumpAt (bumpAt (bumpAt st.vertexFaceCount 0) 1) 2
       let edges := [getEdgeKey 0 1, getEdgeKey 1 2, getEdgeKey 2 0]
       edges.foldl (fun st ek =>
         let p := decodeEdgeKey ek
         let ves1 := st.vertexEdgeSet.set p.1 (setAdd (st.vertexEdgeSet.getD p.1 []) p.2)
         let ves2 := ves1.set p.2 (setAdd (ves1.getD p.2 []) p.1)
         { st with edgeCount := mapBump st.edgeCount ek, vertexEdgeSet := ves2 })
         { st with vertexFaceCount := vfc }) := by
    intro st
    rw [analyzeStep, if_neg (by decide), if_neg (by rw [quad_zeroArea_1]; decide)]
  have h2 : ∀ st : AnalyzeState, analyzeStep quadGeometry.positions st (0, 2, 3) =
      (let vfc := bumpAt (bumpAt (bumpAt st.vertexFaceCount 0) 2) 3
       let edges := [getEdgeKey 0 2, getEdgeKey 2 3, getEdgeKey 3 0]
       edges.foldl (fun st ek =>
         let p := decodeEdgeKey ek
         let ves1 := st.vertexEdgeSet.set p.1 (setAdd (st.vertexEdgeSet.getD p.1 []) p.2)
         let ves2 := ves1.set p.2 (setAdd (ves1.getD p.2 []) p.1)
         { st with edgeCount := mapBump st.edgeCount ek, vertexEdgeSet := ves2 })
         { st with vertexFaceCount := vfc }) := by
    intro st
    rw [analyzeStep, if_neg (by decide), if_neg (by rw [quad_zeroArea_2]; decide)]
  have hd01 : decodeEdgeKey (getEdgeKey 0 1) = (0, 1) :=
    (decodeEdgeKey_getEdgeKey 0 1).trans (by decide)
  have hd12 : decodeEdgeKey (getEdgeKey 1 2) = (1, 2) :=
    (decodeEdgeKey_getEdgeKey 1 2).trans (by decide)
  have hd20 : decodeEdgeKey (getEdgeKey 2 0) = (0, 2) :=
    (decodeEdgeKey_getEdgeKey 2 0).trans (by decide)
  have hd02 : decodeEdgeKey (getEdgeKey 0 2) = (0, 2) :=
    (decodeEdgeKey_getEdgeKey 0 2).trans (by decide)
  have hd23 : decodeEdgeKey (getEdgeKey 2 3) = (2, 3) :=
    (decodeEdgeKey_getEdgeKey 2 3).trans (by decide)
  have hd30 : decodeEdgeKey (getEdgeKey 3 0) = (0, 3) :=
    (decodeEdgeKey_getEdgeKey 3 0).trans (by decide)
  show List.foldl _ _ [(0, 1, 2), (0, 2, 3)] = _
  rw [List.foldl_cons, List.foldl_cons, List.foldl_nil, h1, h2]
  simp only [List.foldl_cons, List.foldl_nil, hd01, hd12, hd20, hd02, hd23, hd30]
  decide

/-- Claim C8: `validateManifoldGeometry` returns true iff the aggregated
analysis reports zero non-manifold edges, zero non-manifold vertices, zero
degenerate faces and zero loose vertices; boundary-edge and
duplicate-vertex counts have no effect.  In particular a flat quad of 2
triangles sharing one diagonal (4 boundary edges, 0 non-manifold edges)
passes validation. -/
theorem validateManifoldGeometry_iff :
    (∀ scene : List BufferGeometry,
      validateManifoldGeometry scene = true ↔
        ((analyzeGeometry scene).nonManifoldEdges = 0 ∧
         (analyzeGeometry scene).nonManifoldVertices = 0 ∧
         (analyzeGeometry scene).degenerateFaces = 0 ∧
         (analyzeGeometry scene).looseVertices = 0)) ∧
    validateManifoldGeometry [quadGeometry] = true ∧
    (analyzeSingleMesh quadGeometry).boundaryEdges = 4 ∧
    (analyzeSingleMesh quadGeometry).nonManifoldEdges = 0 := by
  have hiff : ∀ scene : List BufferGeometry,
      validateManifoldGeometry scene = true ↔
        ((analyzeGeometry scene).nonManifoldEdges = 0 ∧
         (analyzeGeometry scene).nonManifoldVertices = 0 ∧
         (analyzeGeometry scene).degenerateFaces = 0 ∧
         (analyzeGeometry scene).looseVertices = 0) := by
    intro scene
    simp only [validateManifoldGeometry, Bool.not_eq_true', Bool.or_eq_false_iff,
      decide_eq_false_iff_not, not_lt]
    omega
  have hqi : quadGeometry.index = some [0, 1, 2, 0, 2, 3] := rfl
  have hql : quadGeometry.positions.length = 12 := rfl
  have h123 : (12 : ℕ) / 3 = 4 := by norm_num
  have hb : (analyzeSingleMesh quadGeometry).boundaryEdges = 4 := by
    simp only [analyzeSingleMesh, hqi, hql, h123]
    rw [quad_scan]
    decide
  have hnme : (analyzeSingleMesh quadGeometry).nonManifoldEdges = 0 := by
    simp only [analyzeSingleMesh, hqi, hql, h123]
    rw [quad_scan]
    decide
  have hnmv : (analyzeSingleMesh quadGeometry).nonManifoldVertices = 0 := by
    simp only [analyzeSingleMesh, hqi, hql, h123]
    rw [quad_scan]
    decide
  have hloose : (analyzeSingleMesh quadGeometry).looseVertices = 0 := by
    simp only [analyzeSingleMesh, hqi, hql, h123]
    rw [quad_scan]
    decide
  have hdeg : (analyzeSingleMesh quadGeometry).degenerateFaces = 0 := by
    simp only [analyzeSingleMesh, hqi, hql, h123]
    rw [quad_scan]
  refine ⟨hiff, ?_, hb, hnme⟩
  rw [hiff]
  have htot :
      (analyzeGeometry [quadGeometry]).nonManifoldEdges =
        (analyzeSingleMesh quadGeometry).nonManifoldEdges ∧
      (analyzeGeometry [quadGeometry]).nonManifoldVertices =
        (analyzeSingleMesh quadGeometry).nonManifoldVertices ∧
      (analyzeGeometry [quadGeometry]).degenerateFaces =
        (analyzeSingleMesh quadGeometry).degenerateFaces ∧
      (analyzeGeometry [quadGeometry]).looseVertices =
        (analyzeSingleMesh quadGeometry).looseVertices := by
    simp [analyzeGeometry]
  obtain ⟨h1, h2, h3, h4⟩ := htot
  rw [h1, h2, h3, h4, hnme, hnmv, hdeg, hloose]
  exact ⟨rfl, rfl, rfl, rfl⟩

/-! ### Claim C2: recalculate-normals of the OBJ variant -/

/-- An exact square-root oracle adequate for the lengths arising in the C2
evaluation mesh (all of them perfect rational squares). -/
def sqrtTable (q : ℚ) : ℚ :=
  if q = 1 then 1 else if q = 625 then 25 else if q = 324 / 25 then 18 / 5 else 0

/-- Two disjoint triangles with different face normals: face A
`(0,0,0),(1,0,0),(0,1,0)` has unit normal `(0,0,1)`; face B
`(0,0,0),(1,0,0),(0,−7,−24)` has unit normal `(0, 24/25, −7/25)`. -/
def twoTriMesh : ObjRepair.MeshData :=
  { vertices := [(0, 0, 0), (1, 0, 0), (0, 1, 0), (0, 0, 0), (1, 0, 0), (0, -7, -24)]
    faces := [{ vertices := [0, 1, 2] }, { vertices := [3, 4, 5] }] }

lemma twoTri_faceNormal_A :
    ObjRepair.faceNormal twoTriMesh.vertices sqrtTable { vertices := [0, 1, 2] } =
      (0, 0, 1) := by
  simp only [ObjRepair.faceNormal, twoTriMesh, sqrtTable]
  norm_num

lemma twoTri_faceNormal_B :
    ObjRepair.faceNormal twoTriMesh.vertices sqrtTable { vertices := [3, 4, 5] } =
      (0, 24 / 25, -7 / 25) := by
  simp only [ObjRepair.faceNormal, twoTriMesh, sqrtTable]
  norm_num

/-- Claim C2 is FALSE of the code, which contradicts the spec's clear
intent: `new Array(n).fill({x:0,y:0,z:0})` fills the per-vertex normal
array with `n` references to one shared object, so every face normal is
accumulated into the same accumulator and every vertex ends up with the
same normal.  On `twoTriMesh` the code assigns every one of the 6 vertices
the normal `(0, 4/5, 3/5)` (the renormalized total `3·n_A + 3·n_B`),
whereas the spec's per-vertex rule gives vertex 0 (incident to face A
only) the normal `(0, 0, 1)`. -/
theorem recalculateNormals_shared_accumulator :
    (ObjRepair.recalculateNormals sqrtTable twoTriMesh).normals =
      some (List.replicate 6 ((0 : ℚ), (4 : ℚ) / 5, (3 : ℚ) / 5)) ∧
    (ObjRepair.recalculateNormalsSpec sqrtTable twoTriMesh).getD 0 (0, 0, 0) =
      ((0 : ℚ), (0 : ℚ), (1 : ℚ)) ∧
    ((0 : ℚ), (0 : ℚ), (1 : ℚ)) ≠ ((0 : ℚ), (4 : ℚ) / 5, (3 : ℚ) / 5) := by
  refine ⟨?_, ?_, by norm_num⟩
  · have hlen : twoTriMesh.vertices.length = 6 := rfl
    have hfaces : twoTriMesh.faces =
        [{ vertices := [0, 1, 2] }, { vertices := [3, 4, 5] }] := rfl
    have hrep : List.replicate 6 (0 : ℕ) = [0, 0, 0, 0, 0, 0] := rfl
    simp only [ObjRepair.recalculateNormals, hlen, hfaces, hrep]
    norm_num [List.foldl_cons, List.foldl_nil, twoTri_faceNormal_A,
      twoTri_faceNormal_B, sqrtTable]
    rfl
  · simp only [ObjRepair.recalculateNormalsSpec]
    rw [List.getD_eq_getElem _ _ (by simp [twoTriMesh])]
    simp only [List.getElem_map, List.getElem_range]
    norm_num [twoTriMesh, ObjRepair.faceNormal, sqrtTable]

/-! ### Claim C3: OBJ serialize / parse round trip -/

/-- A single triangle with integer coordinates. -/
def triMeshObj : ObjRepair.MeshData :=
  { vertices := [(0, 0, 0), (1, 0, 0), (0, 1, 0)]
    faces := [{ vertices := [0, 1, 2] }] }

/-- Claim C3 is FALSE of the code, which contradicts the spec's clear
intent: `meshDataToObj` correctly serializes the triangle as `f 1 2 3`, but
`parseObjFiles` reads the vertex index from `vertexData[1]` — the slot
after the first `/`, i.e. the uv sub-index slot — instead of
`vertexData[0]`.  For the plain token `"1"` there is no slot 1, so
`parseInt(undefined)` yields `NaN` (`none` in the model): the round trip
returns the face `(NaN, NaN, NaN)` instead of `(0, 1, 2)`. -/
theorem parseObjFiles_vertex_slot_bug :
    ObjRepair.meshDataToObj triMeshObj = "v 0 0 0\nv 1 0 0\nv 0 1 0\nf 1 2 3" ∧
    (ObjRepair.parseObjFiles (ObjRepair.meshDataToObj triMeshObj)).faces =
      [{ vertices := [none, none, none], uv := none }] ∧
    ¬ ((ObjRepair.parseObjFiles (ObjRepair.meshDataToObj triMeshObj)).faces =
      [{ vertices := [some 0, some 1, some 2], uv := none }]) := by
  refine ⟨by decide, by decide, by decide⟩
